import Mathlib

/-!
# MovieLens user-similarity pipeline (`movielens.go`)

A shallow embedding of the core of `movielens.go`: the cosine scorer, the pair
generator, the mutex-guarded similarity map, the worker loop, the pipeline and
the neighbour-vote recommender, followed by the properties proved about them.

Conventions of the embedding.

* `float64` ratings and scores are values of an arbitrary linearly ordered
  field `α` (exact arithmetic); `math.Sqrt` is a parameter `sqrt : α → α`, taken
  to be `Real.sqrt` over `ℝ` where its properties matter.
* A Go `map[string]float64` is the list of its entries in the order a `range`
  loop visits them; the keys of a map are pairwise distinct (`NodupKeys`). The
  score of a pair does not depend on that order (`cosineSimilarity_perm`).
* The outer maps, which the code only indexes and never ranges over, are
  functions `String → Option _` (`none` for an absent key).
* `sort.Slice` (library code, not stable) and the iteration order of the
  `candidateGames` map are parameters, constrained by `IsSortSlice` and
  `IsRangeOrder`.
* The order in which the workers take jobs off the channel and reach `Add` is a
  parameter `schedule`, a permutation of the generated job list.
* The bounds `n`, `k` and the worker count are Go `int`s, modelled as `Int`; a
  slice expression with a negative bound panics, which is the result `none`.
  Vote counts only ever grow from 0 by 1 and are modelled as `Nat`.
-/

namespace MovieLens

/-! ## Data model -/

/-- A Go `map[string]float64`: its entries, in the order a `range` loop visits them. -/
abbrev RatingVec (α : Type) := List (String × α)

/-- The keys of a Go map are pairwise distinct. -/
def NodupKeys {α : Type} (v : RatingVec α) : Prop := (v.map Prod.fst).Nodup

/-- Type `UserRatings map[string]map[string]float64` (only ever indexed by the core). -/
abbrev UserRatings (α : Type) := String → Option (RatingVec α)

/-- Indexing `userRatings[u]`: an absent key yields the nil map, which has no entries. -/
def UserRatings.get {α : Type} (userRatings : UserRatings α) (u : String) : RatingVec α :=
  (userRatings u).getD []

/-- Every rating vector stored in the table is a map (distinct keys). -/
def UserRatings.WF {α : Type} (userRatings : UserRatings α) : Prop :=
  ∀ u v, userRatings u = some v → NodupKeys v

/-- Struct `SimilarityScore`. -/
structure SimilarityScore (α : Type) where
  UserID : String
  Score : α
deriving DecidableEq

/-- Struct `Recommendation`; `Score` is a vote count (a Go `int` that is only ever incremented from 0). -/
structure Recommendation where
  Game : String
  Score : Nat
deriving DecidableEq

/-- Struct `Job`. -/
structure Job where
  UserA_ID : String
  UserB_ID : String
deriving DecidableEq

/-- Struct `Result`. -/
structure Result (α : Type) where
  UserA_ID : String
  UserB_ID : String
  Score : α
deriving DecidableEq

/-- Type `map[string][]SimilarityScore`, the similarity index (only ever indexed by the core). -/
abbrev SimilarityMap (α : Type) := String → Option (List (SimilarityScore α))

/-- Struct `SafeSimilarityMap`: the guarded map; the mutex makes `Add` one atomic step. -/
structure SafeSimilarityMap (α : Type) where
  data : SimilarityMap α

/-- Reading `m[u]` of a `map[string][]SimilarityScore`: nil (no edges) for an absent key. -/
def SimilarityMap.get {α : Type} (m : SimilarityMap α) (u : String) : List (SimilarityScore α) :=
  (m u).getD []

/-- Assignment `m[u] = l`. -/
def SimilarityMap.set {α : Type} (m : SimilarityMap α) (u : String)
    (l : List (SimilarityScore α)) : SimilarityMap α :=
  fun v => if v = u then some l else m v

/-- The map made by `make(map[string][]SimilarityScore)`. -/
def SimilarityMap.empty {α : Type} : SimilarityMap α := fun _ => none

/-- Method `SafeSimilarityMap.Add` (lines 27-33): two appends, in this order, under the lock. -/
def SafeSimilarityMap.Add {α : Type} (s : SafeSimilarityMap α) (result : Result α) :
    SafeSimilarityMap α :=
  let d1 := s.data.set result.UserA_ID
    (s.data.get result.UserA_ID ++ [{ UserID := result.UserB_ID, Score := result.Score }])
  let d2 := d1.set result.UserB_ID
    (d1.get result.UserB_ID ++ [{ UserID := result.UserA_ID, Score := result.Score }])
  { data := d2 }

/-! ## cosineSimilarity (lines 150-171) -/

/-- First loop of `cosineSimilarity`: one pass over `ratingsA` accumulating
`(dotProduct, normA_sq)`; `ratingsB[movieID]` is a lookup with the `ok` flag. -/
def cosineLoopA {α : Type} [LinearOrderedField α] (ratingsA ratingsB : RatingVec α) : α × α :=
  ratingsA.foldl
    (fun acc e =>
      ((match ratingsB.lookup e.1 with
        | some ratingB => acc.1 + e.2 * ratingB
        | none => acc.1),
       acc.2 + e.2 * e.2))
    (0, 0)

/-- Second loop of `cosineSimilarity`: `normB_sq`, over all of `ratingsB`. -/
def cosineLoopB {α : Type} [LinearOrderedField α] (ratingsB : RatingVec α) : α :=
  ratingsB.foldl (fun acc e => acc + e.2 * e.2) 0

/-- Function `cosineSimilarity`. -/
def cosineSimilarity {α : Type} [LinearOrderedField α] (sqrt : α → α)
    (ratingsA ratingsB : RatingVec α) : α :=
  let dotProduct := (cosineLoopA ratingsA ratingsB).1
  let normA_sq := (cosineLoopA ratingsA ratingsB).2
  let normB_sq := cosineLoopB ratingsB
  if normA_sq = 0 ∨ normB_sq = 0 then 0
  else dotProduct / (sqrt normA_sq * sqrt normB_sq)

/-! ## generator, worker, pipeline (lines 214-274) -/

/-- Function `generator`: the sequence of jobs sent on the channel before it is closed.
The two `List.range` loops are `for i := 0; i < len; i++` and `for j := i+1; j < len; j++`. -/
def generator (userIDs : List String) : List Job :=
  (List.range userIDs.length).flatMap fun i =>
    (List.range' (i + 1) (userIDs.length - (i + 1))).map fun j =>
      { UserA_ID := userIDs.getD i "", UserB_ID := userIDs.getD j "" }

/-- Body of the `for job := range jobs` loop of `worker`. -/
def workerStep {α : Type} [LinearOrderedField α] (sqrt : α → α) (userRatings : UserRatings α)
    (safeMap : SafeSimilarityMap α) (job : Job) : SafeSimilarityMap α :=
  let ratingsA := userRatings.get job.UserA_ID
  let ratingsB := userRatings.get job.UserB_ID
  let score := cosineSimilarity sqrt ratingsA ratingsB
  if score > 0 then
    safeMap.Add { UserA_ID := job.UserA_ID, UserB_ID := job.UserB_ID, Score := score }
  else safeMap

/-- Function `worker`, run on the jobs in the order in which their steps take effect. -/
def worker {α : Type} [LinearOrderedField α] (sqrt : α → α) (userRatings : UserRatings α)
    (jobs : List Job) (safeMap : SafeSimilarityMap α) : SafeSimilarityMap α :=
  jobs.foldl (workerStep sqrt userRatings) safeMap

/-- A consumption order: the jobs reach the map in some permutation of the emitted order. -/
def IsSchedule (schedule : List Job → List Job) : Prop := ∀ l, (schedule l).Perm l

/-- Function `calculateAllSimilaritiesConcurrent` (the elapsed time is not modelled).
With no worker (`numWorkers <= 0`) `wg.Wait()` returns at once and the map is still empty. -/
def calculateAllSimilaritiesConcurrent {α : Type} [LinearOrderedField α] (sqrt : α → α)
    (schedule : List Job → List Job) (userRatings : UserRatings α) (userIDs : List String)
    (numWorkers : Int) : SimilarityMap α :=
  let safeMap : SafeSimilarityMap α := { data := SimilarityMap.empty }
  if numWorkers ≤ 0 then safeMap.data
  else (worker sqrt userRatings (schedule (generator userIDs)) safeMap).data

/-! ## generateRecommendations (lines 174-210) -/

/-- What `sort.Slice` guarantees: a permutation of its input which, when `less` is a strict
weak order (asymmetric, negatively transitive), has no later element `less` than an earlier one. -/
def IsSortSlice (sortSlice : (β : Type) → (β → β → Bool) → List β → List β) : Prop :=
  ∀ (β : Type) (less : β → β → Bool) (l : List β),
    (sortSlice β less l).Perm l ∧
    ((∀ a b, less a b = true → less b a = false) →
     (∀ a b c, less a b = false → less b c = false → less a c = false) →
     (sortSlice β less l).Pairwise (fun a b => less b a = false))

/-- What ranging over a Go map guarantees: every entry is visited once, in some order. -/
def IsRangeOrder (rangeOrder : List (String × Nat) → List (String × Nat)) : Prop :=
  ∀ l, (rangeOrder l).Perm l

/-- Statement `if len(x) > n { x = x[:n] }`; the slice expression panics (`none`) for `n < 0`. -/
def sliceTo {β : Type} (x : List β) (n : Int) : Option (List β) :=
  if (x.length : Int) > n then
    if n < 0 then none else some (x.take n.toNat)
  else some x

/-- Statement `candidateGames[movieID]++` on a `map[string]int` (a missing key counts from 0). -/
def incr : List (String × Nat) → String → List (String × Nat)
  | [], movieID => [(movieID, 1)]
  | (m, c) :: rest, movieID =>
    if m = movieID then (m, c + 1) :: rest else (m, c) :: incr rest movieID

/-- The inner loop of the vote count: the items of one neighbour. -/
def voteNeighbor {α : Type} (targetUserRatings neighborRatings : RatingVec α)
    (candidateGames : List (String × Nat)) : List (String × Nat) :=
  neighborRatings.foldl
    (fun cg e => if (targetUserRatings.lookup e.1).isSome then cg else incr cg e.1)
    candidateGames

/-- The loop nest filling `candidateGames`. -/
def voteLoop {α : Type} (userRatings : UserRatings α) (targetUserRatings : RatingVec α)
    (neighbors : List (SimilarityScore α)) : List (String × Nat) :=
  neighbors.foldl
    (fun cg neighbor => voteNeighbor targetUserRatings (userRatings.get neighbor.UserID) cg)
    []

/-- The neighbours selected for a target whose edge list is `targetSimilarities`. -/
def selectNeighbors {α : Type} [LinearOrder α]
    (sortSlice : (β : Type) → (β → β → Bool) → List β → List β)
    (targetSimilarities : List (SimilarityScore α)) (n : Int) :
    Option (List (SimilarityScore α)) :=
  sliceTo (sortSlice _ (fun a b => decide (a.Score > b.Score)) targetSimilarities) n

/-- Function `generateRecommendations` (the elapsed time is not modelled); `none` is a panic. -/
def generateRecommendations {α : Type} [LinearOrder α]
    (sortSlice : (β : Type) → (β → β → Bool) → List β → List β)
    (rangeOrder : List (String × Nat) → List (String × Nat))
    (targetUserID : String) (similarityMap : SimilarityMap α) (userRatings : UserRatings α)
    (n : Int) (k : Int) : Option (List Recommendation) :=
  match similarityMap targetUserID with
  | none => some []
  | some targetSimilarities =>
    match selectNeighbors sortSlice targetSimilarities n with
    | none => none
    | some neighbors =>
      let targetUserRatings := userRatings.get targetUserID
      let candidateGames := voteLoop userRatings targetUserRatings neighbors
      let recommendations : List Recommendation :=
        (rangeOrder candidateGames).map fun e => { Game := e.1, Score := e.2 }
      sliceTo (sortSlice _ (fun a b => decide (a.Score > b.Score)) recommendations) k

/-! ## Instances of the parameters used for evaluation -/

/-- A stable insertion sort, one admissible behaviour of `sort.Slice`
(and what it does on slices of fewer than 12 elements). -/
def insertionSortSlice (β : Type) (less : β → β → Bool) (l : List β) : List β :=
  l.insertionSort (fun a b => less b a = false)

/-- A rating table given by its list of rows. -/
def tableOf {α : Type} (rows : List (String × RatingVec α)) : UserRatings α :=
  fun u => rows.lookup u

/-! ## Auxiliary definitions used in the statements -/

/-- The edges one `Add` contributes to the list of user `u`. -/
def edgesOf {α : Type} (u : String) (r : Result α) : List (SimilarityScore α) :=
  (if u = r.UserA_ID then [{ UserID := r.UserB_ID, Score := r.Score }] else []) ++
  (if u = r.UserB_ID then [{ UserID := r.UserA_ID, Score := r.Score }] else [])

/-- The index pairs visited by the two loops of `generator` over a list of length `N`. -/
def pairIdx (N : Nat) : List (Nat × Nat) :=
  (List.range N).flatMap fun i => (List.range' (i + 1) (N - (i + 1))).map fun j => (i, j)

/-- The edges the worker step for `job` contributes to the list of user `u`. -/
def jobEdges {α : Type} [LinearOrderedField α] (sqrt : α → α) (userRatings : UserRatings α)
    (u : String) (job : Job) : List (SimilarityScore α) :=
  if cosineSimilarity sqrt (userRatings.get job.UserA_ID) (userRatings.get job.UserB_ID) > 0 then
    edgesOf u
      { UserA_ID := job.UserA_ID, UserB_ID := job.UserB_ID,
        Score := cosineSimilarity sqrt (userRatings.get job.UserA_ID)
          (userRatings.get job.UserB_ID) }
  else []

/-- The rating table of the round-trip scenario:
`U1:{A:5,B:4}`, `U2:{A:5,B:4,C:3}`, `U3:{C:5}`. -/
def scenarioRatings (α : Type) [LinearOrderedField α] : UserRatings α :=
  tableOf
    [("U1", [("A", 5), ("B", 4)]),
     ("U2", [("A", 5), ("B", 4), ("C", 3)]),
     ("U3", [("C", 5)])]

/-- The rating of item `m` in `B`, read as `0` when `B` does not rate `m`. -/
def ratingOr0 {α : Type} [LinearOrderedField α] (B : RatingVec α) (m : String) : α :=
  (B.lookup m).getD 0

/-- The number of the given neighbours whose rating vector contains `item`. -/
def voteCount {α : Type} (userRatings : UserRatings α) (neighbors : List (SimilarityScore α))
    (item : String) : Nat :=
  neighbors.countP fun nb => decide (item ∈ (userRatings.get nb.UserID).map Prod.fst)

/-- The items one neighbour votes for, in loop order: its items that the target has not rated. -/
def votedItems {α : Type} (targetUserRatings neighborRatings : RatingVec α) : List String :=
  (neighborRatings.filter fun e => !(targetUserRatings.lookup e.1).isSome).map Prod.fst

/-- All votes cast by the loop nest, in order. -/
def allVotes {α : Type} (userRatings : UserRatings α) (targetUserRatings : RatingVec α)
    (neighbors : List (SimilarityScore α)) : List String :=
  neighbors.flatMap fun nb => votedItems targetUserRatings (userRatings.get nb.UserID)

/-- A vote table `cg` records the votes `items`: distinct keys, each key mapped to the number
of times it was voted for, and no entry with count `0`. -/
def VoteInv (items : List String) (cg : List (String × Nat)) : Prop :=
  (cg.map Prod.fst).Nodup ∧ (∀ m, (cg.lookup m).getD 0 = items.count m) ∧ ∀ e ∈ cg, 0 < e.2

/-- The neighbours `generateRecommendations` selects for `target`: the first `n` entries
(all of them when there are fewer) of the target's edge list sorted by score descending. -/
def topNeighbors {α : Type} [LinearOrder α]
    (sortSlice : (β : Type) → (β → β → Bool) → List β → List β)
    (similarityMap : SimilarityMap α) (targetUserID : String) (n : Int) :
    List (SimilarityScore α) :=
  (sortSlice _ (fun a b => decide (a.Score > b.Score)) (similarityMap.get targetUserID)).take
    n.toNat

/-- The distinct candidate items: rated by at least one of the neighbours, not by the target. -/
def candidates {α : Type} (userRatings : UserRatings α) (targetUserID : String)
    (neighbors : List (SimilarityScore α)) : List String :=
  ((neighbors.flatMap fun nb => (userRatings.get nb.UserID).map Prod.fst).filter fun m =>
    decide (m ∉ (userRatings.get targetUserID).map Prod.fst)).dedup

/-- A rating table with a vote tie: `T:{X:5}`, `N:{X:4,B:3,A:5}` (`N` ranged over in this order). -/
def tieRatings : UserRatings ℚ :=
  tableOf [("T", [("X", 5)]), ("N", [("X", 4), ("B", 3), ("A", 5)])]

/-- An index in which `N` is the only neighbour of `T`. -/
def tieIndex : SimilarityMap ℚ :=
  fun u =>
    if u = "T" then some [{ UserID := "N", Score := 1 / 2 }]
    else if u = "N" then some [{ UserID := "T", Score := 1 / 2 }]
    else none

/-- A rating table with four candidates for `T`: `T:{X:5}`, `N1:{X:4,A:3,B:5}`,
`N2:{X:2,B:1,C:4}`, `N3:{B:2,C:3,D:1}`. -/
def topkRatings : UserRatings ℚ :=
  tableOf
    [("T", [("X", 5)]),
     ("N1", [("X", 4), ("A", 3), ("B", 5)]),
     ("N2", [("X", 2), ("B", 1), ("C", 4)]),
     ("N3", [("B", 2), ("C", 3), ("D", 1)])]

/-- An index in which `T` has the three neighbours `N2`, `N1`, `N3`, stored out of order. -/
def topkIndex : SimilarityMap ℚ :=
  fun u =>
    if u = "T" then
      some [{ UserID := "N2", Score := 1 / 3 }, { UserID := "N1", Score := 1 / 2 },
            { UserID := "N3", Score := 1 / 4 }]
    else none

/-! # Theorems -/

/-! ## The similarity map -/

section IndexLemmas
variable {α : Type}

theorem SimilarityMap.get_set (m : SimilarityMap α) (u v : String) (l : List (SimilarityScore α)) :
    (m.set u l).get v = if v = u then l else m.get v := by
  unfold SimilarityMap.get SimilarityMap.set
  by_cases h : v = u <;> simp [h]

theorem SimilarityMap.isSome_set (m : SimilarityMap α) (u v : String)
    (l : List (SimilarityScore α)) :
    ((m.set u l) v).isSome = true ↔ (v = u ∨ (m v).isSome = true) := by
  unfold SimilarityMap.set
  by_cases h : v = u <;> simp [h]

theorem SimilarityMap.get_empty (u : String) :
    (SimilarityMap.empty : SimilarityMap α).get u = [] := rfl

theorem Add_get (s : SafeSimilarityMap α) (r : Result α) (u : String) :
    (s.Add r).data.get u = s.data.get u ++ edgesOf u r := by
  simp only [SafeSimilarityMap.Add, SimilarityMap.get_set, edgesOf]
  by_cases hA : u = r.UserA_ID <;> by_cases hB : u = r.UserB_ID
  · subst hA; simp [← hB]
  · subst hA; simp [hB]
  · subst hB; simp [hA]
  · simp [hA, hB]

theorem Add_isSome (s : SafeSimilarityMap α) (r : Result α) (u : String) :
    ((s.Add r).data u).isSome = true ↔
      ((s.data u).isSome = true ∨ u = r.UserA_ID ∨ u = r.UserB_ID) := by
  simp only [SafeSimilarityMap.Add, SimilarityMap.isSome_set]
  tauto

theorem mem_edgesOf (u : String) (r : Result α) (e : SimilarityScore α) :
    e ∈ edgesOf u r ↔
      (u = r.UserA_ID ∧ e = { UserID := r.UserB_ID, Score := r.Score }) ∨
      (u = r.UserB_ID ∧ e = { UserID := r.UserA_ID, Score := r.Score }) := by
  unfold edgesOf
  by_cases hA : u = r.UserA_ID <;> by_cases hB : u = r.UserB_ID <;> simp [hA, hB]

theorem foldl_Add_get (rs : List (Result α)) (s : SafeSimilarityMap α) (u : String) :
    (rs.foldl SafeSimilarityMap.Add s).data.get u = s.data.get u ++ rs.flatMap (edgesOf u) := by
  induction rs generalizing s with
  | nil => simp
  | cons r rs ih => simp [ih, Add_get, List.flatMap_cons]

end IndexLemmas

/-- Claim C2. Symmetry is an invariant of the index under `SafeSimilarityMap.Add`: after any
finite sequence of `Add` calls on the empty index, the edge `(B, s)` is in the list of `A`
exactly when the edge `(A, s)` is in the list of `B`; and one `Add` appends its two edges,
`(UserB_ID, Score)` to the list of `UserA_ID` and `(UserA_ID, Score)` to the list of
`UserB_ID`, leaving every other list as it was. -/
theorem add_symmetry_invariant {α : Type} :
    (∀ (rs : List (Result α)) (A B : String) (s : α),
      ({ UserID := B, Score := s } : SimilarityScore α) ∈
          (rs.foldl SafeSimilarityMap.Add { data := SimilarityMap.empty }).data.get A ↔
      ({ UserID := A, Score := s } : SimilarityScore α) ∈
          (rs.foldl SafeSimilarityMap.Add { data := SimilarityMap.empty }).data.get B) ∧
    (∀ (m : SafeSimilarityMap α) (r : Result α) (u : String),
      (m.Add r).data.get u =
        m.data.get u ++
          ((if u = r.UserA_ID then [{ UserID := r.UserB_ID, Score := r.Score }] else []) ++
           (if u = r.UserB_ID then [{ UserID := r.UserA_ID, Score := r.Score }] else []))) := by
  refine ⟨?_, fun m r u => Add_get m r u⟩
  intro rs A B s
  rw [foldl_Add_get, foldl_Add_get]
  simp only [SimilarityMap.get_empty, List.nil_append, List.mem_flatMap, mem_edgesOf,
    SimilarityScore.mk.injEq]
  constructor
  · rintro ⟨r, hr, h | h⟩
    · exact ⟨r, hr, Or.inr ⟨h.2.1, h.1, h.2.2⟩⟩
    · exact ⟨r, hr, Or.inl ⟨h.2.1, h.1, h.2.2⟩⟩
  · rintro ⟨r, hr, h | h⟩
    · exact ⟨r, hr, Or.inr ⟨h.2.1, h.1, h.2.2⟩⟩
    · exact ⟨r, hr, Or.inl ⟨h.2.1, h.1, h.2.2⟩⟩


/-! ## The job generator -/

theorem generator_eq_map (ids : List String) :
    generator ids =
      (pairIdx ids.length).map fun p =>
        { UserA_ID := ids.getD p.1 "", UserB_ID := ids.getD p.2 "" } := by
  simp [generator, pairIdx, List.map_flatMap, Function.comp_def]

theorem mem_pairIdx (N i j : Nat) : (i, j) ∈ pairIdx N ↔ i < j ∧ j < N := by
  simp only [pairIdx, List.mem_flatMap, List.mem_range, List.mem_map, List.mem_range'_1,
    Prod.mk.injEq]
  constructor
  · rintro ⟨a, _, b, hb, rfl, rfl⟩
    omega
  · intro h
    exact ⟨i, by omega, j, by omega, rfl, rfl⟩

theorem pairIdx_pairwise (N : Nat) :
    (pairIdx N).Pairwise fun p q => p.1 < q.1 ∨ (p.1 = q.1 ∧ p.2 < q.2) := by
  unfold pairIdx
  rw [List.pairwise_flatMap]
  constructor
  · intro i _
    rw [List.pairwise_map]
    exact (List.pairwise_lt_range' (i + 1) (N - (i + 1))).imp fun h => Or.inr ⟨rfl, h⟩
  · refine (List.pairwise_lt_range N).imp ?_
    intro a b hab x hx y hy
    simp only [List.mem_map] at hx hy
    obtain ⟨_, _, rfl⟩ := hx
    obtain ⟨_, _, rfl⟩ := hy
    exact Or.inl hab

theorem generator_nil : generator [] = [] := rfl

theorem generator_cons (a : String) (rest : List String) :
    generator (a :: rest) =
      rest.map (fun b => { UserA_ID := a, UserB_ID := b }) ++ generator rest := by
  unfold generator
  rw [List.length_cons, List.range_succ_eq_map, List.flatMap_cons, List.flatMap_map]
  congr 1
  · simp only [Nat.zero_add, Nat.add_sub_cancel, List.getD_cons_zero]
    apply List.ext_getElem
    · simp
    · intro n h1 h2
      simp at h1
      simp [List.getD_eq_getElem?_getD, Nat.add_comm 1 n, List.getElem?_eq_getElem h1]
  · apply List.flatMap_congr
    intro i _
    have h : List.range' (i + 1 + 1) (rest.length + 1 - (i + 1 + 1)) =
        (List.range' (i + 1) (rest.length - (i + 1))).map (1 + ·) := by
      rw [List.map_add_range']
      congr 1 <;> omega
    show List.map _ (List.range' (i + 1 + 1) (rest.length + 1 - (i + 1 + 1))) = _
    rw [h, List.map_map]
    apply List.map_congr_left
    intro j _
    simp [Nat.add_comm 1 j]

theorem generator_length (ids : List String) :
    (generator ids).length = ids.length * (ids.length - 1) / 2 := by
  induction ids with
  | nil => rfl
  | cons a rest ih =>
    rw [generator_cons, List.length_append, List.length_map, ih, List.length_cons]
    cases rest.length with
    | zero => rfl
    | succ m =>
      have h : (m + 1 + 1) * (m + 1 + 1 - 1) = (m + 1) * (m + 1 - 1) + 2 * (m + 1) := by
        simp only [Nat.add_sub_cancel]
        ring
      rw [h, Nat.add_mul_div_left _ _ (by norm_num : 0 < 2)]
      omega

theorem mem_generator_mem (ids : List String) (job : Job) (h : job ∈ generator ids) :
    job.UserA_ID ∈ ids ∧ job.UserB_ID ∈ ids := by
  induction ids with
  | nil => simp [generator_nil] at h
  | cons a rest ih =>
    rw [generator_cons, List.mem_append, List.mem_map] at h
    rcases h with ⟨b, hb, rfl⟩ | h
    · exact ⟨List.mem_cons_self _ _, List.mem_cons_of_mem _ hb⟩
    · exact ⟨List.mem_cons_of_mem _ (ih h).1, List.mem_cons_of_mem _ (ih h).2⟩

theorem generator_no_self_pair (ids : List String) (hnd : ids.Nodup) :
    ∀ job ∈ generator ids, job.UserA_ID ≠ job.UserB_ID := by
  induction ids with
  | nil => simp [generator_nil]
  | cons a rest ih =>
    rw [List.nodup_cons] at hnd
    intro job h
    rw [generator_cons, List.mem_append, List.mem_map] at h
    rcases h with ⟨b, hb, rfl⟩ | h
    · intro hab
      simp only at hab
      exact hnd.1 (hab ▸ hb)
    · exact ih hnd.2 job h

theorem generator_no_repeat (ids : List String) (hnd : ids.Nodup) :
    (generator ids).Pairwise fun x y =>
      ¬ (x.UserA_ID = y.UserA_ID ∧ x.UserB_ID = y.UserB_ID) ∧
      ¬ (x.UserA_ID = y.UserB_ID ∧ x.UserB_ID = y.UserA_ID) := by
  induction ids with
  | nil => simp [generator_nil]
  | cons a rest ih =>
    rw [List.nodup_cons] at hnd
    rw [generator_cons, List.pairwise_append]
    refine ⟨?_, ih hnd.2, ?_⟩
    · rw [List.pairwise_map]
      refine hnd.2.imp ?_
      intro b c hbc
      refine ⟨fun h => hbc h.2, fun h => ?_⟩
      simp only at h
      exact hbc (h.2.trans h.1)
    · intro x hx y hy
      rw [List.mem_map] at hx
      obtain ⟨b, hb, rfl⟩ := hx
      have hy' := mem_generator_mem rest y hy
      refine ⟨fun h => ?_, fun h => ?_⟩
      · have h1 : a = y.UserA_ID := h.1
        exact hnd.1 (h1 ▸ hy'.1)
      · have h1 : a = y.UserB_ID := h.1
        exact hnd.1 (h1 ▸ hy'.2)

/-- Claim C1. For every list `ids` of `N` user identifiers, `generator` emits exactly the jobs
`(ids[i], ids[j])` for `0 <= i < j < N`, in nested order (`i` outer, `j` inner): the emitted
list matches, element by element, a list of index pairs that contains every pair `i < j < N`
and no other, and is strictly increasing in the lexicographic order. It therefore emits
`N * (N - 1) / 2` jobs (none for the empty and the one-element list), and when the identifiers
are pairwise distinct no job is a self-pair and no unordered pair is emitted twice. -/
theorem generator_emits_all_pairs (ids : List String) :
    (∃ idx : List (Nat × Nat),
      List.Forall₂
        (fun (job : Job) (p : Nat × Nat) =>
          ids[p.1]? = some job.UserA_ID ∧ ids[p.2]? = some job.UserB_ID)
        (generator ids) idx ∧
      (∀ i j, (i, j) ∈ idx ↔ (i < j ∧ j < ids.length)) ∧
      idx.Pairwise (fun p q => p.1 < q.1 ∨ (p.1 = q.1 ∧ p.2 < q.2))) ∧
    (generator ids).length = ids.length * (ids.length - 1) / 2 ∧
    generator [] = [] ∧
    (∀ a : String, generator [a] = []) ∧
    (ids.Nodup →
      (∀ job ∈ generator ids, job.UserA_ID ≠ job.UserB_ID) ∧
      (generator ids).Pairwise fun x y =>
        ¬ (x.UserA_ID = y.UserA_ID ∧ x.UserB_ID = y.UserB_ID) ∧
        ¬ (x.UserA_ID = y.UserB_ID ∧ x.UserB_ID = y.UserA_ID)) := by
  refine ⟨⟨pairIdx ids.length, ?_, mem_pairIdx ids.length, pairIdx_pairwise ids.length⟩,
    generator_length ids, rfl, fun a => rfl,
    fun hnd => ⟨generator_no_self_pair ids hnd, generator_no_repeat ids hnd⟩⟩
  rw [generator_eq_map, List.forall₂_map_left_iff, List.forall₂_same]
  rintro ⟨i, j⟩ hp
  rw [mem_pairIdx] at hp
  have hi : i < ids.length := by omega
  simp [List.getD_eq_getElem?_getD, List.getElem?_eq_getElem hi, List.getElem?_eq_getElem hp.2]

/-- Witness for C1 on a four-element sample of distinct identifiers. -/
theorem generator_emits_all_pairs_witness :
    (generator ["u1", "u2", "u3", "u4"]).length = 6 ∧
    (∀ job ∈ generator ["u1", "u2", "u3", "u4"], job.UserA_ID ≠ job.UserB_ID) :=
  ⟨(generator_emits_all_pairs ["u1", "u2", "u3", "u4"]).2.1,
   ((generator_emits_all_pairs ["u1", "u2", "u3", "u4"]).2.2.2.2 (by decide)).1⟩


/-! ## The worker loop and the pipeline -/

section WorkerLemmas
variable {α : Type} [LinearOrderedField α]

theorem mem_generator_iff (ids : List String) (job : Job) :
    job ∈ generator ids ↔
      ∃ i j, i < j ∧ j < ids.length ∧
        ids[i]? = some job.UserA_ID ∧ ids[j]? = some job.UserB_ID := by
  rw [generator_eq_map, List.mem_map]
  constructor
  · rintro ⟨⟨i, j⟩, hp, rfl⟩
    rw [mem_pairIdx] at hp
    have hi : i < ids.length := by omega
    exact ⟨i, j, hp.1, hp.2, by
      simp [List.getD_eq_getElem?_getD, List.getElem?_eq_getElem hi,
        List.getElem?_eq_getElem hp.2]⟩
  · rintro ⟨i, j, hij, hj, hA, hB⟩
    refine ⟨(i, j), (mem_pairIdx _ _ _).2 ⟨hij, hj⟩, ?_⟩
    cases job
    simp_all [List.getD_eq_getElem?_getD]

theorem workerStep_get (sqrt : α → α) (userRatings : UserRatings α)
    (m : SafeSimilarityMap α) (job : Job) (u : String) :
    (workerStep sqrt userRatings m job).data.get u =
      m.data.get u ++ jobEdges sqrt userRatings u job := by
  unfold workerStep jobEdges
  by_cases h : cosineSimilarity sqrt (userRatings.get job.UserA_ID)
      (userRatings.get job.UserB_ID) > 0
  · simp only [h, if_true, Add_get]
  · simp only [h, if_false, List.append_nil]

theorem workerStep_isSome (sqrt : α → α) (userRatings : UserRatings α)
    (m : SafeSimilarityMap α) (job : Job) (u : String) :
    ((workerStep sqrt userRatings m job).data u).isSome = true ↔
      ((m.data u).isSome = true ∨
        (cosineSimilarity sqrt (userRatings.get job.UserA_ID)
            (userRatings.get job.UserB_ID) > 0 ∧
          (u = job.UserA_ID ∨ u = job.UserB_ID))) := by
  unfold workerStep
  by_cases h : cosineSimilarity sqrt (userRatings.get job.UserA_ID)
      (userRatings.get job.UserB_ID) > 0
  · simp only [h, if_true, Add_isSome, true_and]
  · simp only [h, if_false, false_and, or_false]

theorem worker_get (sqrt : α → α) (userRatings : UserRatings α) (jobs : List Job)
    (m : SafeSimilarityMap α) (u : String) :
    (worker sqrt userRatings jobs m).data.get u =
      m.data.get u ++ jobs.flatMap (jobEdges sqrt userRatings u) := by
  unfold worker
  induction jobs generalizing m with
  | nil => simp
  | cons job jobs ih => simp [ih, workerStep_get, List.flatMap_cons]

theorem worker_isSome (sqrt : α → α) (userRatings : UserRatings α) (jobs : List Job)
    (m : SafeSimilarityMap α) (u : String) :
    ((worker sqrt userRatings jobs m).data u).isSome = true ↔
      ((m.data u).isSome = true ∨
        ∃ job ∈ jobs,
          cosineSimilarity sqrt (userRatings.get job.UserA_ID)
              (userRatings.get job.UserB_ID) > 0 ∧
            (u = job.UserA_ID ∨ u = job.UserB_ID)) := by
  unfold worker
  induction jobs generalizing m with
  | nil => simp
  | cons job jobs ih =>
    rw [List.foldl_cons, ih, workerStep_isSome]
    simp only [List.mem_cons, exists_eq_or_imp, or_assoc]

theorem mem_jobEdges (sqrt : α → α) (userRatings : UserRatings α) (u : String) (job : Job)
    (e : SimilarityScore α) :
    e ∈ jobEdges sqrt userRatings u job ↔
      (cosineSimilarity sqrt (userRatings.get job.UserA_ID) (userRatings.get job.UserB_ID) > 0 ∧
        e.Score = cosineSimilarity sqrt (userRatings.get job.UserA_ID)
          (userRatings.get job.UserB_ID) ∧
        ((u = job.UserA_ID ∧ e.UserID = job.UserB_ID) ∨
         (u = job.UserB_ID ∧ e.UserID = job.UserA_ID))) := by
  unfold jobEdges
  by_cases h : cosineSimilarity sqrt (userRatings.get job.UserA_ID)
      (userRatings.get job.UserB_ID) > 0
  · simp only [h, if_true, mem_edgesOf, true_and]
    cases e
    simp only [SimilarityScore.mk.injEq]
    tauto
  · simp [h]

theorem calculate_get (sqrt : α → α) (schedule : List Job → List Job)
    (userRatings : UserRatings α) (userIDs : List String) (numWorkers : Int)
    (hw : 1 ≤ numWorkers) (u : String) :
    (calculateAllSimilaritiesConcurrent sqrt schedule userRatings userIDs numWorkers).get u =
      (schedule (generator userIDs)).flatMap (jobEdges sqrt userRatings u) := by
  unfold calculateAllSimilaritiesConcurrent
  have h : ¬ numWorkers ≤ 0 := by omega
  simp only [h, if_false]
  rw [worker_get, SimilarityMap.get_empty, List.nil_append]

theorem calculate_isSome (sqrt : α → α) (schedule : List Job → List Job)
    (userRatings : UserRatings α) (userIDs : List String) (numWorkers : Int)
    (hw : 1 ≤ numWorkers) (u : String) :
    ((calculateAllSimilaritiesConcurrent sqrt schedule userRatings userIDs numWorkers) u).isSome
        = true ↔
      ∃ job ∈ schedule (generator userIDs),
        cosineSimilarity sqrt (userRatings.get job.UserA_ID)
            (userRatings.get job.UserB_ID) > 0 ∧
          (u = job.UserA_ID ∨ u = job.UserB_ID) := by
  unfold calculateAllSimilaritiesConcurrent
  have h : ¬ numWorkers ≤ 0 := by omega
  simp only [h, if_false]
  rw [worker_isSome]
  simp [SimilarityMap.empty]

theorem mem_calculate_get (sqrt : α → α) (schedule : List Job → List Job)
    (hs : IsSchedule schedule)
    (userRatings : UserRatings α) (userIDs : List String) (numWorkers : Int)
    (hw : 1 ≤ numWorkers) (u : String) (e : SimilarityScore α) :
    e ∈ (calculateAllSimilaritiesConcurrent sqrt schedule userRatings userIDs numWorkers).get u ↔
      ∃ job ∈ generator userIDs, e ∈ jobEdges sqrt userRatings u job := by
  rw [calculate_get sqrt schedule userRatings userIDs numWorkers hw, List.mem_flatMap]
  constructor
  · rintro ⟨job, hj, he⟩
    exact ⟨job, (hs _).mem_iff.1 hj, he⟩
  · rintro ⟨job, hj, he⟩
    exact ⟨job, (hs _).mem_iff.2 hj, he⟩

end WorkerLemmas


/-- Claim C3. For every rating table and every sample `ids`, the index returned by
`calculateAllSimilaritiesConcurrent` run with at least one worker (so that every generated
job is handled once, in some order) holds, for every `i < j` whose score
`s = cosineSimilarity(ratings[ids[i]], ratings[ids[j]])` is positive, the edge `(ids[j], s)` in
the list of `ids[i]` and the edge `(ids[i], s)` in the list of `ids[j]`; conversely every stored
edge comes from such a pair, so every stored score is positive; and when the identifiers are
pairwise distinct a pair with score `<= 0` contributes no edge to either list. (The identifiers
need not be keys of the table for any of this.) -/
theorem calculate_index_edges {α : Type} [LinearOrderedField α] (sqrt : α → α)
    (schedule : List Job → List Job) (hs : IsSchedule schedule)
    (userRatings : UserRatings α) (ids : List String) (numWorkers : Int)
    (hw : 1 ≤ numWorkers) :
    (∀ (i j : Nat) (a b : String), i < j → ids[i]? = some a → ids[j]? = some b →
      cosineSimilarity sqrt (userRatings.get a) (userRatings.get b) > 0 →
      ({ UserID := b, Score := cosineSimilarity sqrt (userRatings.get a) (userRatings.get b) }
          : SimilarityScore α) ∈
        (calculateAllSimilaritiesConcurrent sqrt schedule userRatings ids numWorkers).get a ∧
      ({ UserID := a, Score := cosineSimilarity sqrt (userRatings.get a) (userRatings.get b) }
          : SimilarityScore α) ∈
        (calculateAllSimilaritiesConcurrent sqrt schedule userRatings ids numWorkers).get b) ∧
    (∀ u e,
      e ∈ (calculateAllSimilaritiesConcurrent sqrt schedule userRatings ids numWorkers).get u →
      ∃ (i j : Nat) (a b : String), i < j ∧ ids[i]? = some a ∧ ids[j]? = some b ∧
        e.Score = cosineSimilarity sqrt (userRatings.get a) (userRatings.get b) ∧
        ((u = a ∧ e.UserID = b) ∨ (u = b ∧ e.UserID = a))) ∧
    (∀ u e,
      e ∈ (calculateAllSimilaritiesConcurrent sqrt schedule userRatings ids numWorkers).get u →
      e.Score > 0) ∧
    (ids.Nodup → ∀ (i j : Nat) (a b : String), i < j → ids[i]? = some a → ids[j]? = some b →
      cosineSimilarity sqrt (userRatings.get a) (userRatings.get b) ≤ 0 →
      (∀ e ∈ (calculateAllSimilaritiesConcurrent sqrt schedule userRatings ids numWorkers).get a,
        e.UserID ≠ b) ∧
      (∀ e ∈ (calculateAllSimilaritiesConcurrent sqrt schedule userRatings ids numWorkers).get b,
        e.UserID ≠ a)) := by
  refine ⟨?_, ?_, ?_, ?_⟩
  · intro i j a b hij ha hb hpos
    have hj : j < ids.length := (List.getElem?_eq_some_iff.1 hb).1
    have hmem : ({ UserA_ID := a, UserB_ID := b } : Job) ∈ generator ids :=
      (mem_generator_iff ids _).2 ⟨i, j, hij, hj, ha, hb⟩
    constructor
    · rw [mem_calculate_get sqrt schedule hs userRatings ids numWorkers hw]
      exact ⟨_, hmem, (mem_jobEdges _ _ _ _ _).2 ⟨hpos, rfl, Or.inl ⟨rfl, rfl⟩⟩⟩
    · rw [mem_calculate_get sqrt schedule hs userRatings ids numWorkers hw]
      exact ⟨_, hmem, (mem_jobEdges _ _ _ _ _).2 ⟨hpos, rfl, Or.inr ⟨rfl, rfl⟩⟩⟩
  · intro u e he
    rw [mem_calculate_get sqrt schedule hs userRatings ids numWorkers hw] at he
    obtain ⟨job, hjob, he⟩ := he
    obtain ⟨i, j, hij, _, ha, hb⟩ := (mem_generator_iff ids job).1 hjob
    obtain ⟨_, hscore, hside⟩ := (mem_jobEdges _ _ _ _ _).1 he
    exact ⟨i, j, job.UserA_ID, job.UserB_ID, hij, ha, hb, hscore, hside⟩
  · intro u e he
    rw [mem_calculate_get sqrt schedule hs userRatings ids numWorkers hw] at he
    obtain ⟨job, _, he⟩ := he
    obtain ⟨hpos, hscore, _⟩ := (mem_jobEdges _ _ _ _ _).1 he
    rw [hscore]
    exact hpos
  · intro hnd i j a b hij ha hb hle
    have key : ∀ u v e, ((u = a ∧ v = b) ∨ (u = b ∧ v = a)) →
        e ∈ (calculateAllSimilaritiesConcurrent sqrt schedule userRatings ids numWorkers).get u →
        e.UserID ≠ v := by
      intro u v e huv he hev
      rw [mem_calculate_get sqrt schedule hs userRatings ids numWorkers hw] at he
      obtain ⟨job, hjob, he⟩ := he
      obtain ⟨i', j', hij', _, ha', hb'⟩ := (mem_generator_iff ids job).1 hjob
      obtain ⟨hpos, _, hside⟩ := (mem_jobEdges _ _ _ _ _).1 he
      have inj : ∀ (p q : Nat) (x : String), ids[p]? = some x → ids[q]? = some x → p = q := by
        intro p q x hp hq
        obtain ⟨hp1, hp2⟩ := List.getElem?_eq_some_iff.1 hp
        obtain ⟨hq1, hq2⟩ := List.getElem?_eq_some_iff.1 hq
        exact (List.Nodup.getElem_inj_iff hnd).1 (hp2.trans hq2.symm)
      have hAB : (job.UserA_ID = a ∧ job.UserB_ID = b) ∨ (job.UserA_ID = b ∧ job.UserB_ID = a) := by
        rw [hev] at hside
        rcases huv with ⟨rfl, rfl⟩ | ⟨rfl, rfl⟩ <;> rcases hside with ⟨h1, h2⟩ | ⟨h1, h2⟩
        · exact Or.inl ⟨h1.symm, h2.symm⟩
        · exact Or.inr ⟨h2.symm, h1.symm⟩
        · exact Or.inr ⟨h1.symm, h2.symm⟩
        · exact Or.inl ⟨h2.symm, h1.symm⟩
      rcases hAB with ⟨hA, hB⟩ | ⟨hA, hB⟩
      · rw [hA, hB] at hpos
        exact absurd hpos (not_lt.2 hle)
      · rw [hA] at ha'
        rw [hB] at hb'
        have h1 := inj _ _ _ ha' hb
        have h2 := inj _ _ _ hb' ha
        omega
    exact ⟨fun e he => key a b e (Or.inl ⟨rfl, rfl⟩) he,
      fun e he => key b a e (Or.inr ⟨rfl, rfl⟩) he⟩

/-- Witness for C3: the scenario table over the reals, four workers, jobs taken in reverse. -/
theorem calculate_index_edges_witness :
    IsSchedule List.reverse ∧ (1 : Int) ≤ 4 ∧
    ∀ u e,
      e ∈ (calculateAllSimilaritiesConcurrent Real.sqrt List.reverse (scenarioRatings ℝ)
            ["U1", "U2", "U3"] 4).get u →
      e.Score > 0 :=
  ⟨fun l => List.reverse_perm l, by decide,
   (calculate_index_edges Real.sqrt List.reverse (fun l => List.reverse_perm l)
      (scenarioRatings ℝ) ["U1", "U2", "U3"] 4 (by decide)).2.2.1⟩

/-- Claim C4. For a fixed rating table and sample, two runs of the pipeline with worker counts
`>= 1`, whatever the orders in which the generated jobs are consumed, produce indexes with the
same set of user keys and, for every user, edge lists that are permutations of one another:
only the order of the edges inside a list can depend on the number of workers. -/
theorem calculate_order_independent {α : Type} [LinearOrderedField α] (sqrt : α → α)
    (schedule₁ schedule₂ : List Job → List Job)
    (hs₁ : IsSchedule schedule₁) (hs₂ : IsSchedule schedule₂)
    (userRatings : UserRatings α) (ids : List String) (workers₁ workers₂ : Int)
    (hw₁ : 1 ≤ workers₁) (hw₂ : 1 ≤ workers₂) (u : String) :
    (((calculateAllSimilaritiesConcurrent sqrt schedule₁ userRatings ids workers₁) u).isSome =
      ((calculateAllSimilaritiesConcurrent sqrt schedule₂ userRatings ids workers₂) u).isSome) ∧
    ((calculateAllSimilaritiesConcurrent sqrt schedule₁ userRatings ids workers₁).get u).Perm
      ((calculateAllSimilaritiesConcurrent sqrt schedule₂ userRatings ids workers₂).get u) := by
  constructor
  · rw [Bool.eq_iff_iff, calculate_isSome sqrt schedule₁ userRatings ids workers₁ hw₁,
      calculate_isSome sqrt schedule₂ userRatings ids workers₂ hw₂]
    constructor
    · rintro ⟨job, hj, h⟩
      exact ⟨job, (hs₂ _).mem_iff.2 ((hs₁ _).mem_iff.1 hj), h⟩
    · rintro ⟨job, hj, h⟩
      exact ⟨job, (hs₁ _).mem_iff.2 ((hs₂ _).mem_iff.1 hj), h⟩
  · rw [calculate_get sqrt schedule₁ userRatings ids workers₁ hw₁,
      calculate_get sqrt schedule₂ userRatings ids workers₂ hw₂]
    exact ((hs₁ _).trans (hs₂ _).symm).flatMap_right _

/-- Witness for C4: one worker taking the jobs in emission order against four workers whose
steps take effect in the reverse order, on the scenario table over the reals. -/
theorem calculate_order_independent_witness :
    IsSchedule id ∧ IsSchedule List.reverse ∧ (1 : Int) ≤ 1 ∧ (1 : Int) ≤ 4 ∧
    ((calculateAllSimilaritiesConcurrent Real.sqrt id (scenarioRatings ℝ)
        ["U1", "U2", "U3"] 1).get "U2").Perm
      ((calculateAllSimilaritiesConcurrent Real.sqrt List.reverse (scenarioRatings ℝ)
        ["U1", "U2", "U3"] 4).get "U2") :=
  ⟨fun l => List.Perm.refl l, fun l => List.reverse_perm l, by decide, by decide,
   (calculate_order_independent Real.sqrt id List.reverse (fun l => List.Perm.refl l)
      (fun l => List.reverse_perm l) (scenarioRatings ℝ) ["U1", "U2", "U3"] 1 4
      (by decide) (by decide) "U2").2⟩


/-! ## The cosine scorer -/

section CosineLemmas
variable {α : Type} [LinearOrderedField α]

theorem cosineLoopA_foldl (A B : RatingVec α) (d n : α) :
    A.foldl
        (fun acc e =>
          ((match B.lookup e.1 with
            | some ratingB => acc.1 + e.2 * ratingB
            | none => acc.1),
           acc.2 + e.2 * e.2))
        (d, n) =
      (d + (A.map fun e => e.2 * ratingOr0 B e.1).sum, n + (A.map fun e => e.2 * e.2).sum) := by
  induction A generalizing d n with
  | nil => simp
  | cons e A ih =>
    rw [List.foldl_cons, ih]
    simp only [List.map_cons, List.sum_cons, ratingOr0]
    cases h : B.lookup e.1 <;> simp [add_assoc]

theorem cosineLoopA_fst (A B : RatingVec α) :
    (cosineLoopA A B).1 = (A.map fun e => e.2 * ratingOr0 B e.1).sum := by
  unfold cosineLoopA
  rw [cosineLoopA_foldl]
  simp

theorem cosineLoopA_snd (A B : RatingVec α) :
    (cosineLoopA A B).2 = (A.map fun e => e.2 * e.2).sum := by
  unfold cosineLoopA
  rw [cosineLoopA_foldl]
  simp

theorem cosineLoopB_foldl (B : RatingVec α) (n : α) :
    B.foldl (fun acc e => acc + e.2 * e.2) n = n + (B.map fun e => e.2 * e.2).sum := by
  induction B generalizing n with
  | nil => simp
  | cons e B ih =>
    rw [List.foldl_cons, ih]
    simp [add_assoc]

theorem cosineLoopB_eq (B : RatingVec α) :
    cosineLoopB B = (B.map fun e => e.2 * e.2).sum := by
  unfold cosineLoopB
  rw [cosineLoopB_foldl]
  simp

theorem sum_sq_nonneg (B : RatingVec α) : 0 ≤ (B.map fun e => e.2 * e.2).sum := by
  apply List.sum_nonneg
  intro x hx
  rw [List.mem_map] at hx
  obtain ⟨e, _, rfl⟩ := hx
  exact mul_self_nonneg _

theorem ratingOr0_of_disjoint (A B : RatingVec α)
    (h : ∀ m, m ∈ A.map Prod.fst → m ∉ B.map Prod.fst) :
    ∀ e ∈ A, ratingOr0 B e.1 = 0 := by
  intro e he
  have hn : B.lookup e.1 = none := by
    rw [List.lookup_eq_none_iff]
    intro p hp
    have h1 : e.1 ∉ B.map Prod.fst := h _ (List.mem_map_of_mem _ he)
    have h2 : e.1 ≠ p.1 := fun heq => h1 (heq ▸ List.mem_map_of_mem _ hp)
    simpa using h2
  simp [ratingOr0, hn]

theorem dot_eq_zero_of_disjoint (A B : RatingVec α)
    (h : ∀ m, m ∈ A.map Prod.fst → m ∉ B.map Prod.fst) :
    (cosineLoopA A B).1 = 0 := by
  rw [cosineLoopA_fst]
  apply List.sum_eq_zero
  intro x hx
  rw [List.mem_map] at hx
  obtain ⟨e, he, rfl⟩ := hx
  rw [ratingOr0_of_disjoint A B h e he, mul_zero]

theorem cosine_eq_zero_of_disjoint (sqrt : α → α) (A B : RatingVec α)
    (h : ∀ m, m ∈ A.map Prod.fst → m ∉ B.map Prod.fst) :
    cosineSimilarity sqrt A B = 0 := by
  unfold cosineSimilarity
  simp only [dot_eq_zero_of_disjoint A B h, zero_div, ite_self]

theorem cosine_pos (sqrt : α → α) (hsqrt : ∀ x, 0 < x → 0 < sqrt x) (A B : RatingVec α)
    (hdot : 0 < (cosineLoopA A B).1) (hA : (cosineLoopA A B).2 ≠ 0) (hB : cosineLoopB B ≠ 0) :
    0 < cosineSimilarity sqrt A B := by
  unfold cosineSimilarity
  have hA' : 0 < (cosineLoopA A B).2 :=
    lt_of_le_of_ne (by rw [cosineLoopA_snd]; exact sum_sq_nonneg A) (Ne.symm hA)
  have hB' : 0 < cosineLoopB B :=
    lt_of_le_of_ne (by rw [cosineLoopB_eq]; exact sum_sq_nonneg B) (Ne.symm hB)
  simp only [hA, hB, or_self, if_false]
  exact div_pos hdot (mul_pos (hsqrt _ hA') (hsqrt _ hB'))

omit [LinearOrderedField α] in
theorem mem_of_lookup_eq_some (B : RatingVec α) (m : String) (b : α)
    (h : B.lookup m = some b) : (m, b) ∈ B := by
  rw [List.lookup_eq_some_iff] at h
  obtain ⟨l₁, l₂, rfl, _⟩ := h
  simp

theorem ratingOr0_nonneg (B : RatingVec α) (hB : ∀ e ∈ B, 0 ≤ e.2) (m : String) :
    0 ≤ ratingOr0 B m := by
  unfold ratingOr0
  cases h : B.lookup m with
  | none => simp
  | some b => simpa using hB _ (mem_of_lookup_eq_some B m b h)

theorem dot_nonneg (A B : RatingVec α) (hA : ∀ e ∈ A, 0 ≤ e.2) (hB : ∀ e ∈ B, 0 ≤ e.2) :
    0 ≤ (cosineLoopA A B).1 := by
  rw [cosineLoopA_fst]
  apply List.sum_nonneg
  intro x hx
  rw [List.mem_map] at hx
  obtain ⟨e, he, rfl⟩ := hx
  exact mul_nonneg (hA e he) (ratingOr0_nonneg B hB _)

/-- Cauchy-Schwarz for two functions summed along a list. -/
theorem list_cauchy_schwarz {ι : Type} (l : List ι) (f g : ι → α) :
    ((l.map fun x => f x * g x).sum) ^ 2 ≤
      (l.map fun x => f x ^ 2).sum * (l.map fun x => g x ^ 2).sum := by
  rw [← Fin.sum_univ_get' l (fun x => f x * g x), ← Fin.sum_univ_get' l (fun x => f x ^ 2),
    ← Fin.sum_univ_get' l (fun x => g x ^ 2)]
  exact Finset.sum_mul_sq_le_sq_mul_sq _ _ _

theorem sum_indicator_le (A : RatingVec α) (hA : NodupKeys A) (m : String) (c : α)
    (hc : 0 ≤ c) :
    (A.map fun e => if e.1 = m then c else 0).sum ≤ c ∧
    (m ∉ A.map Prod.fst → (A.map fun e => if e.1 = m then c else 0).sum = 0) := by
  induction A with
  | nil => simpa using hc
  | cons e A ih =>
    unfold NodupKeys at hA
    rw [List.map_cons, List.nodup_cons] at hA
    obtain ⟨ih1, ih2⟩ := ih hA.2
    simp only [List.map_cons, List.sum_cons, List.mem_cons, not_or]
    by_cases hem : e.1 = m
    · rw [if_pos hem, ih2 (hem ▸ hA.1)]
      exact ⟨by simp, fun h => absurd hem.symm h.1⟩
    · rw [if_neg hem, zero_add]
      exact ⟨ih1, fun h => ih2 h.2⟩

theorem sum_sq_lookup_le (A B : RatingVec α) (hA : NodupKeys A) :
    (A.map fun e => ratingOr0 B e.1 ^ 2).sum ≤ (B.map fun e => e.2 * e.2).sum := by
  induction B with
  | nil => simp [ratingOr0]
  | cons p B ih =>
    have hstep : ∀ e ∈ A, ratingOr0 (p :: B) e.1 ^ 2 ≤
        (if e.1 = p.1 then p.2 * p.2 else 0) + ratingOr0 B e.1 ^ 2 := by
      intro e _
      unfold ratingOr0
      rw [List.lookup_cons]
      by_cases h : e.1 = p.1
      · simp only [h, beq_self_eq_true, Option.getD_some, if_true]
        have := sq_nonneg ((List.lookup p.1 B).getD 0)
        nlinarith
      · have hb : (e.1 == p.1) = false := by simpa using h
        simp [hb, h]
    calc (A.map fun e => ratingOr0 (p :: B) e.1 ^ 2).sum
        ≤ (A.map fun e => (if e.1 = p.1 then p.2 * p.2 else 0) + ratingOr0 B e.1 ^ 2).sum :=
          List.sum_le_sum hstep
      _ = (A.map fun e => if e.1 = p.1 then p.2 * p.2 else 0).sum +
            (A.map fun e => ratingOr0 B e.1 ^ 2).sum := List.sum_map_add
      _ ≤ p.2 * p.2 + (B.map fun e => e.2 * e.2).sum :=
          add_le_add (sum_indicator_le A hA p.1 _ (mul_self_nonneg _)).1 ih
      _ = ((p :: B).map fun e => e.2 * e.2).sum := by simp

theorem dot_sq_le (A B : RatingVec α) (hA : NodupKeys A) :
    (cosineLoopA A B).1 ^ 2 ≤ (cosineLoopA A B).2 * cosineLoopB B := by
  rw [cosineLoopA_fst, cosineLoopA_snd, cosineLoopB_eq]
  calc ((A.map fun e => e.2 * ratingOr0 B e.1).sum) ^ 2
      ≤ (A.map fun e => e.2 ^ 2).sum * (A.map fun e => ratingOr0 B e.1 ^ 2).sum :=
        list_cauchy_schwarz A (fun e => e.2) (fun e => ratingOr0 B e.1)
    _ ≤ (A.map fun e => e.2 * e.2).sum * (B.map fun e => e.2 * e.2).sum := by
        have h1 : (A.map fun e => e.2 ^ 2).sum = (A.map fun e => e.2 * e.2).sum := by
          congr 1
          apply List.map_congr_left
          intro e _
          ring
        rw [h1]
        exact mul_le_mul_of_nonneg_left (sum_sq_lookup_le A B hA) (sum_sq_nonneg A)

end CosineLemmas


/-- Claim C5. For two sparse rating vectors `A` and `B` (maps, so the keys of `A` are pairwise
distinct) whose ratings are all non-negative, with ratings and arithmetic read as exact reals,
`cosineSimilarity(A, B)` lies in `[0, 1]`: the dot product, which sums `a * b` over the items of
`A` that `B` also rates, is at most the product of the two full L2 norms (the squares summed
over all items of `A`, and over all items of `B`), and the result is `0` when either squared
norm is `0`. -/
theorem cosine_in_unit_interval (A B : RatingVec ℝ) (hkeys : NodupKeys A)
    (hA : ∀ e ∈ A, 0 ≤ e.2) (hB : ∀ e ∈ B, 0 ≤ e.2) :
    (0 ≤ cosineSimilarity Real.sqrt A B ∧ cosineSimilarity Real.sqrt A B ≤ 1) ∧
    ((cosineLoopA A B).1 = (A.map fun e => e.2 * (B.lookup e.1).getD 0).sum ∧
     (cosineLoopA A B).2 = (A.map fun e => e.2 * e.2).sum ∧
     cosineLoopB B = (B.map fun e => e.2 * e.2).sum) ∧
    (cosineLoopA A B).1 ≤ Real.sqrt (cosineLoopA A B).2 * Real.sqrt (cosineLoopB B) ∧
    ((cosineLoopA A B).2 = 0 ∨ cosineLoopB B = 0 → cosineSimilarity Real.sqrt A B = 0) := by
  have hdot : 0 ≤ (cosineLoopA A B).1 := dot_nonneg A B hA hB
  have hnA : 0 ≤ (cosineLoopA A B).2 := by rw [cosineLoopA_snd]; exact sum_sq_nonneg A
  have hle : (cosineLoopA A B).1 ≤
      Real.sqrt (cosineLoopA A B).2 * Real.sqrt (cosineLoopB B) := by
    rw [← Real.sqrt_mul hnA]
    exact (le_abs_self _).trans (Real.abs_le_sqrt (dot_sq_le A B hkeys))
  refine ⟨?_, ⟨cosineLoopA_fst A B, cosineLoopA_snd A B, cosineLoopB_eq B⟩, hle, ?_⟩
  · unfold cosineSimilarity
    by_cases h0 : (cosineLoopA A B).2 = 0 ∨ cosineLoopB B = 0
    · simp only [h0, if_true]
      exact ⟨le_refl _, zero_le_one⟩
    · simp only [h0, if_false]
      have hden : 0 ≤ Real.sqrt (cosineLoopA A B).2 * Real.sqrt (cosineLoopB B) :=
        mul_nonneg (Real.sqrt_nonneg _) (Real.sqrt_nonneg _)
      exact ⟨div_nonneg hdot hden, div_le_one_of_le₀ hle hden⟩
  · intro h0
    unfold cosineSimilarity
    simp only [h0, if_true]

/-- Witness for C5: the two vectors `{m1:5, m2:3}` and `{m1:4, m3:2}`. -/
theorem cosine_in_unit_interval_witness :
    NodupKeys ([("m1", 5), ("m2", 3)] : RatingVec ℝ) ∧
    (0 ≤ cosineSimilarity Real.sqrt [("m1", 5), ("m2", 3)] [("m1", 4), ("m3", 2)] ∧
      cosineSimilarity Real.sqrt [("m1", 5), ("m2", 3)] [("m1", 4), ("m3", 2)] ≤ 1) :=
  ⟨by simp [NodupKeys],
   (cosine_in_unit_interval [("m1", 5), ("m2", 3)] [("m1", 4), ("m3", 2)]
      (by simp [NodupKeys]) (by simp) (by simp)).1⟩

/-- Claim C6. For all rating vectors `A` and `B` with no item rated in both,
`cosineSimilarity(A, B) = 0` whatever the norms are, and when the zero-norm guard is passed
the divisor `sqrt(normA_sq) * sqrt(normB_sq)` is not zero, so no division by zero occurs.
In particular the result is `0` whenever `A` or `B` is empty (`cosine({}, {}) = 0`,
`cosine({a:1}, {}) = 0`) and for disjoint non-empty vectors (`cosine({m1:5}, {m2:5}) = 0`). -/
theorem cosine_disjoint_zero :
    (∀ A B : RatingVec ℝ, (∀ m, m ∈ A.map Prod.fst → m ∉ B.map Prod.fst) →
      cosineSimilarity Real.sqrt A B = 0 ∧
      (¬ ((cosineLoopA A B).2 = 0 ∨ cosineLoopB B = 0) →
        Real.sqrt (cosineLoopA A B).2 * Real.sqrt (cosineLoopB B) ≠ 0)) ∧
    (∀ A : RatingVec ℝ, cosineSimilarity Real.sqrt A [] = 0) ∧
    (∀ B : RatingVec ℝ, cosineSimilarity Real.sqrt [] B = 0) ∧
    cosineSimilarity Real.sqrt ([] : RatingVec ℝ) [] = 0 ∧
    cosineSimilarity Real.sqrt [("a", 1)] [] = 0 ∧
    cosineSimilarity Real.sqrt [("m1", 5)] [("m2", 5)] = 0 := by
  have main : ∀ A B : RatingVec ℝ, (∀ m, m ∈ A.map Prod.fst → m ∉ B.map Prod.fst) →
      cosineSimilarity Real.sqrt A B = 0 := cosine_eq_zero_of_disjoint Real.sqrt
  refine ⟨fun A B h => ⟨main A B h, ?_⟩, fun A => main A [] (by simp),
    fun B => main [] B (by simp), main [] [] (by simp), main _ [] (by simp),
    main _ _ (by simp)⟩
  intro h0
  rw [not_or] at h0
  have hA : 0 < (cosineLoopA A B).2 :=
    lt_of_le_of_ne (by rw [cosineLoopA_snd]; exact sum_sq_nonneg A) (Ne.symm h0.1)
  have hB : 0 < cosineLoopB B :=
    lt_of_le_of_ne (by rw [cosineLoopB_eq]; exact sum_sq_nonneg B) (Ne.symm h0.2)
  exact (mul_pos (Real.sqrt_pos.2 hA) (Real.sqrt_pos.2 hB)).ne'

/-- Witness for C6: the disjoint vectors `{m1:5, m3:1}` and `{m2:5}`. -/
theorem cosine_disjoint_zero_witness :
    (∀ m, m ∈ ([("m1", 5), ("m3", 1)] : RatingVec ℝ).map Prod.fst →
      m ∉ ([("m2", 5)] : RatingVec ℝ).map Prod.fst) ∧
    cosineSimilarity Real.sqrt [("m1", 5), ("m3", 1)] [("m2", 5)] = 0 :=
  ⟨by simp, (cosine_disjoint_zero.1 [("m1", 5), ("m3", 1)] [("m2", 5)] (by simp)).1⟩


/-! ## The recommender -/

section VoteLemmas
variable {α : Type}

theorem voteNeighbor_eq (tgt nbR : RatingVec α) (cg : List (String × Nat)) :
    voteNeighbor tgt nbR cg = (votedItems tgt nbR).foldl incr cg := by
  unfold voteNeighbor votedItems
  induction nbR generalizing cg with
  | nil => rfl
  | cons e nbR ih =>
    rw [List.foldl_cons, ih]
    cases h : List.lookup e.1 tgt <;> simp [List.filter_cons, h]

theorem voteLoop_foldl (userRatings : UserRatings α) (tgt : RatingVec α)
    (nbs : List (SimilarityScore α)) (cg : List (String × Nat)) :
    nbs.foldl (fun cg nb => voteNeighbor tgt (userRatings.get nb.UserID) cg) cg =
      (allVotes userRatings tgt nbs).foldl incr cg := by
  unfold allVotes
  induction nbs generalizing cg with
  | nil => rfl
  | cons nb nbs ih =>
    rw [List.foldl_cons, ih, List.flatMap_cons, List.foldl_append, voteNeighbor_eq]

theorem voteLoop_eq (userRatings : UserRatings α) (tgt : RatingVec α)
    (nbs : List (SimilarityScore α)) :
    voteLoop userRatings tgt nbs = (allVotes userRatings tgt nbs).foldl incr [] :=
  voteLoop_foldl userRatings tgt nbs []

theorem lookup_incr (cg : List (String × Nat)) (m m' : String) :
    (incr cg m).lookup m' =
      if m' = m then some ((cg.lookup m).getD 0 + 1) else cg.lookup m' := by
  induction cg with
  | nil =>
    by_cases h : m' = m
    · simp [incr, h]
    · have hb : (m' == m) = false := by simpa using h
      simp [incr, h, List.lookup_cons, hb]
  | cons p cg ih =>
    obtain ⟨k, c⟩ := p
    unfold incr
    by_cases hk : k = m
    · subst hk
      by_cases h : m' = k
      · subst h; simp
      · have hb : (m' == k) = false := by simpa using h
        simp [h, List.lookup_cons, hb]
    · rw [if_neg hk, List.lookup_cons, ih]
      have hb : (m == k) = false := by simpa using Ne.symm hk
      by_cases h : m' = m
      · subst h
        simp [List.lookup_cons, hb]
      · simp only [if_neg h, List.lookup_cons]

theorem keys_incr (cg : List (String × Nat)) (m : String) :
    (incr cg m).map Prod.fst =
      if m ∈ cg.map Prod.fst then cg.map Prod.fst else cg.map Prod.fst ++ [m] := by
  induction cg with
  | nil => simp [incr]
  | cons p cg ih =>
    obtain ⟨k, c⟩ := p
    unfold incr
    by_cases hk : k = m
    · subst hk; simp
    · rw [if_neg hk, List.map_cons, ih]
      by_cases hm : m ∈ cg.map Prod.fst
      · simp [hm]
      · have : ¬ (m = k) := Ne.symm hk
        simp [hm, this]

theorem pos_incr (cg : List (String × Nat)) (m : String) (h : ∀ e ∈ cg, 0 < e.2) :
    ∀ e ∈ incr cg m, 0 < e.2 := by
  induction cg with
  | nil => simp [incr]
  | cons p cg ih =>
    obtain ⟨k, c⟩ := p
    unfold incr
    by_cases hk : k = m
    · rw [if_pos hk]
      intro e he
      rcases List.mem_cons.1 he with rfl | he
      · exact Nat.succ_pos _
      · exact h e (List.mem_cons_of_mem _ he)
    · rw [if_neg hk]
      intro e he
      rcases List.mem_cons.1 he with rfl | he
      · exact h _ (List.mem_cons_self _ _)
      · exact ih (fun e he => h e (List.mem_cons_of_mem _ he)) e he

theorem VoteInv.incr {items : List String} {cg : List (String × Nat)} (h : VoteInv items cg)
    (m : String) : VoteInv (items ++ [m]) (MovieLens.incr cg m) := by
  obtain ⟨h1, h2, h3⟩ := h
  refine ⟨?_, ?_, pos_incr cg m h3⟩
  · rw [keys_incr]
    by_cases hm : m ∈ cg.map Prod.fst
    · rw [if_pos hm]; exact h1
    · rw [if_neg hm]
      exact List.Nodup.append h1 (List.nodup_singleton m) (by simpa using hm)
  · intro m'
    rw [lookup_incr, List.count_append]
    by_cases h : m' = m
    · subst h
      simp [h2 m']
    · have hb : (m == m') = false := by simpa using Ne.symm h
      simp [h, h2 m', List.count_cons, hb]

theorem VoteInv.foldl (items : List String) :
    ∀ (pre : List String) (cg : List (String × Nat)), VoteInv pre cg →
      VoteInv (pre ++ items) (items.foldl MovieLens.incr cg) := by
  induction items with
  | nil => intro pre cg h; simpa using h
  | cons m items ih =>
    intro pre cg h
    have := ih (pre ++ [m]) _ (h.incr m)
    simpa using this

theorem VoteInv.nil : VoteInv [] [] := by
  refine ⟨List.nodup_nil, fun m => by simp, fun e he => by simp at he⟩

omit α in
theorem lookup_of_mem_nodup {γ : Type} (cg : List (String × γ)) (h : (cg.map Prod.fst).Nodup)
    (m : String) (c : γ) (hmem : (m, c) ∈ cg) : cg.lookup m = some c := by
  induction cg with
  | nil => simp at hmem
  | cons p cg ih =>
    obtain ⟨k, c'⟩ := p
    rw [List.map_cons, List.nodup_cons] at h
    rcases List.mem_cons.1 hmem with heq | hrest
    · cases heq; simp
    · have hne : m ≠ k := by
        intro hmk
        have hin : m ∈ cg.map Prod.fst := List.mem_map_of_mem Prod.fst hrest
        exact h.1 (hmk ▸ hin)
      have hb : (m == k) = false := by simpa using hne
      rw [List.lookup_cons, hb]
      exact ih h.2 hrest

theorem VoteInv.mem_iff {items : List String} {cg : List (String × Nat)} (h : VoteInv items cg)
    (m : String) (c : Nat) : (m, c) ∈ cg ↔ (c = items.count m ∧ 0 < c) := by
  obtain ⟨h1, h2, h3⟩ := h
  constructor
  · intro hmem
    have hl := lookup_of_mem_nodup cg h1 m c hmem
    have := h2 m
    rw [hl] at this
    exact ⟨by simpa using this, h3 _ hmem⟩
  · rintro ⟨rfl, hpos⟩
    have := h2 m
    cases hl : cg.lookup m with
    | none => rw [hl] at this; simp at this; omega
    | some c' =>
      rw [hl] at this
      have hc : c' = List.count m items := by simpa using this
      exact hc ▸ mem_of_lookup_eq_some cg m c' hl

theorem voteLoop_inv (userRatings : UserRatings α) (tgt : RatingVec α)
    (nbs : List (SimilarityScore α)) :
    VoteInv (allVotes userRatings tgt nbs) (voteLoop userRatings tgt nbs) := by
  rw [voteLoop_eq]
  simpa using VoteInv.foldl (allVotes userRatings tgt nbs) [] [] VoteInv.nil

theorem UserRatings.WF.get {userRatings : UserRatings α} (h : userRatings.WF) (u : String) :
    NodupKeys (userRatings.get u) := by
  unfold UserRatings.get
  cases hu : userRatings u with
  | none => simp [NodupKeys]
  | some v => simpa using h u v hu

theorem count_votedItems (tgt v : RatingVec α) (hv : NodupKeys v) (m : String) :
    (votedItems tgt v).count m =
      if (tgt.lookup m).isSome then 0
      else if m ∈ v.map Prod.fst then 1 else 0 := by
  have hrw : votedItems tgt v =
      (v.map Prod.fst).filter (fun k => !(tgt.lookup k).isSome) := by
    unfold votedItems
    rw [List.filter_map]
    rfl
  rw [hrw]
  by_cases ht : (tgt.lookup m).isSome = true
  · rw [if_pos ht]
    apply List.count_eq_zero_of_not_mem
    intro hmem
    have := (List.mem_filter.1 hmem).2
    simp [ht] at this
  · rw [if_neg ht, List.count_filter (by cases hx : (tgt.lookup m).isSome <;> simp_all)]
    by_cases hm : m ∈ v.map Prod.fst
    · rw [if_pos hm]
      exact List.count_eq_one_of_mem hv hm
    · rw [if_neg hm]
      exact List.count_eq_zero_of_not_mem hm

theorem count_allVotes (userRatings : UserRatings α) (hR : userRatings.WF) (tgt : RatingVec α)
    (nbs : List (SimilarityScore α)) (m : String) :
    (allVotes userRatings tgt nbs).count m =
      if (tgt.lookup m).isSome then 0 else voteCount userRatings nbs m := by
  unfold allVotes voteCount
  induction nbs with
  | nil => simp
  | cons nb nbs ih =>
    rw [List.flatMap_cons, List.count_append, ih, count_votedItems _ _ (hR.get _),
      List.countP_cons]
    cases hx : (tgt.lookup m).isSome
    · simp only [Bool.false_eq_true, if_false, decide_eq_true_eq]
      omega
    · simp

end VoteLemmas

/-! ## The iteration order of a rating vector does not change its score -/

theorem lookup_perm {γ : Type} (l₁ l₂ : List (String × γ)) (hp : l₁.Perm l₂)
    (h : (l₁.map Prod.fst).Nodup) (k : String) : l₁.lookup k = l₂.lookup k := by
  have h₂ : (l₂.map Prod.fst).Nodup := (hp.map Prod.fst).nodup_iff.1 h
  apply Option.ext
  intro b
  constructor
  · intro hb
    exact lookup_of_mem_nodup l₂ h₂ k b (hp.mem_iff.1 (mem_of_lookup_eq_some l₁ k b hb))
  · intro hb
    exact lookup_of_mem_nodup l₁ h k b (hp.mem_iff.2 (mem_of_lookup_eq_some l₂ k b hb))

theorem cosineSimilarity_perm {α : Type} [LinearOrderedField α] (sqrt : α → α)
    (A A' B B' : RatingVec α) (hA : A.Perm A') (hB : B.Perm B') (hnd : NodupKeys B) :
    cosineSimilarity sqrt A B = cosineSimilarity sqrt A' B' := by
  have hr : ratingOr0 B = ratingOr0 B' := by
    funext m
    unfold ratingOr0
    rw [lookup_perm B B' hB hnd m]
  unfold cosineSimilarity
  rw [cosineLoopA_fst, cosineLoopA_snd, cosineLoopB_eq, cosineLoopA_fst, cosineLoopA_snd,
    cosineLoopB_eq, hr, (hA.map _).sum_eq, (hA.map fun e => e.2 * e.2).sum_eq,
    (hB.map fun e => e.2 * e.2).sum_eq]


section RecommendLemmas
variable {α : Type} [LinearOrder α]

theorem sliceTo_of_nonneg {β : Type} (x : List β) (n : Int) (hn : 0 ≤ n) :
    sliceTo x n = some (x.take n.toNat) := by
  unfold sliceTo
  by_cases h : (x.length : Int) > n
  · rw [if_pos h, if_neg (by omega)]
  · rw [if_neg h, List.take_of_length_le (by omega)]

theorem insertionSortSlice_isSortSlice : IsSortSlice insertionSortSlice := by
  intro β less l
  refine ⟨List.perm_insertionSort _ l, fun hasym hneg => ?_⟩
  haveI : IsTotal β (fun a b => less b a = false) := ⟨fun a b => by
    cases h : less b a
    · exact Or.inl rfl
    · exact Or.inr (hasym b a h)⟩
  haveI : IsTrans β (fun a b => less b a = false) := ⟨fun a b c hab hbc => hneg c b a hbc hab⟩
  exact List.sorted_insertionSort (fun a b => less b a = false) l

theorem lookup_isSome_iff_mem_keys {γ : Type} (v : List (String × γ)) (m : String) :
    (v.lookup m).isSome = true ↔ m ∈ v.map Prod.fst := by
  rw [List.lookup_isSome_iff]
  simp only [beq_iff_eq, List.mem_map]
  constructor
  · rintro ⟨p, hp, rfl⟩; exact ⟨p, hp, rfl⟩
  · rintro ⟨p, hp, rfl⟩; exact ⟨p, hp, rfl⟩

omit [LinearOrder α] in
theorem mem_allVotes (userRatings : UserRatings α) (tgt : RatingVec α)
    (nbs : List (SimilarityScore α)) (m : String) :
    m ∈ allVotes userRatings tgt nbs ↔
      (∃ nb ∈ nbs, m ∈ (userRatings.get nb.UserID).map Prod.fst) ∧ m ∉ tgt.map Prod.fst := by
  unfold allVotes votedItems
  simp only [List.mem_flatMap, List.mem_map, List.mem_filter, Bool.not_eq_true',
    ← lookup_isSome_iff_mem_keys tgt]
  constructor
  · rintro ⟨nb, hnb, e, ⟨he, hne⟩, rfl⟩
    exact ⟨⟨nb, hnb, e, he, rfl⟩, by simp [hne]⟩
  · rintro ⟨⟨nb, hnb, e, he, rfl⟩, hne⟩
    exact ⟨nb, hnb, e, ⟨he, Bool.eq_false_iff.2 hne⟩, rfl⟩

/-- The shape of the result for non-negative bounds: a prefix of a list `S` that is a
permutation of the vote table and is sorted by vote count, largest first. -/
theorem generateRecommendations_spec
    (sortSlice : (β : Type) → (β → β → Bool) → List β → List β) (hsort : IsSortSlice sortSlice)
    (rangeOrder : List (String × Nat) → List (String × Nat)) (hrange : IsRangeOrder rangeOrder)
    (targetUserID : String) (similarityMap : SimilarityMap α) (userRatings : UserRatings α)
    (n k : Int) (hn : 0 ≤ n) (hk : 0 ≤ k) :
    ∃ S : List Recommendation,
      generateRecommendations sortSlice rangeOrder targetUserID similarityMap userRatings n k =
        some (S.take k.toNat) ∧
      S.Perm ((voteLoop userRatings (userRatings.get targetUserID)
        (topNeighbors sortSlice similarityMap targetUserID n)).map
          fun e => { Game := e.1, Score := e.2 }) ∧
      S.Pairwise (fun a b => b.Score ≤ a.Score) := by
  have hsorted : ∀ l : List Recommendation,
      (sortSlice _ (fun a b => decide (a.Score > b.Score)) l).Pairwise
        (fun a b => b.Score ≤ a.Score) := by
    intro l
    have h := (hsort Recommendation (fun a b => decide (a.Score > b.Score)) l).2
      (by intro a b h; simp only [decide_eq_true_eq, decide_eq_false_iff_not] at *; omega)
      (by intro a b c h1 h2; simp only [decide_eq_false_iff_not] at *; omega)
    refine h.imp ?_
    intro a b hab
    simp only [decide_eq_false_iff_not] at hab
    omega
  unfold generateRecommendations topNeighbors
  cases hidx : similarityMap targetUserID with
  | none =>
    refine ⟨[], by simp, ?_, List.Pairwise.nil⟩
    have hget : similarityMap.get targetUserID = [] := by
      simp [SimilarityMap.get, hidx]
    have hnil : sortSlice (SimilarityScore α) (fun a b => decide (a.Score > b.Score)) [] = [] :=
      List.perm_nil.1 (hsort _ _ []).1
    rw [hget, hnil]
    simp [voteLoop]
  | some ts =>
    have hget : similarityMap.get targetUserID = ts := by
      simp [SimilarityMap.get, hidx]
    simp only [selectNeighbors, sliceTo_of_nonneg _ n hn, hget]
    rw [sliceTo_of_nonneg _ k hk]
    refine ⟨_, rfl, ?_, hsorted _⟩
    exact ((hsort _ _ _).1).trans ((hrange _).map _)

omit [LinearOrder α] in
theorem mem_candidates (userRatings : UserRatings α) (targetUserID : String)
    (nbs : List (SimilarityScore α)) (m : String) :
    m ∈ candidates userRatings targetUserID nbs ↔
      m ∈ allVotes userRatings (userRatings.get targetUserID) nbs := by
  rw [mem_allVotes]
  unfold candidates
  simp only [List.mem_dedup, List.mem_filter, List.mem_flatMap, decide_eq_true_eq]

omit [LinearOrder α] in
theorem keys_voteLoop_perm (userRatings : UserRatings α) (targetUserID : String)
    (nbs : List (SimilarityScore α)) :
    ((voteLoop userRatings (userRatings.get targetUserID) nbs).map Prod.fst).Perm
      (candidates userRatings targetUserID nbs) := by
  have hinv := voteLoop_inv userRatings (userRatings.get targetUserID) nbs
  have hnd : (candidates userRatings targetUserID nbs).Nodup := by
    unfold candidates
    exact List.nodup_dedup _
  rw [List.perm_ext_iff_of_nodup hinv.1 hnd]
  intro m
  rw [mem_candidates, List.mem_map,
    ← List.count_pos_iff (l := allVotes userRatings (userRatings.get targetUserID) nbs)]
  constructor
  · rintro ⟨⟨m', c⟩, hmem, rfl⟩
    obtain ⟨h1, h2⟩ := (hinv.mem_iff m' c).1 hmem
    show 0 < List.count m' _
    omega
  · intro hpos
    exact ⟨(m, _), (hinv.mem_iff m _).2 ⟨rfl, hpos⟩, rfl⟩

/-- Everything the claims about the recommender need, for non-negative bounds: the result is
the first `k` entries of a list `S` sorted by vote count, whose items are distinct and are
exactly the candidates, each with its vote count. -/
theorem generateRecommendations_facts
    (sortSlice : (β : Type) → (β → β → Bool) → List β → List β) (hsort : IsSortSlice sortSlice)
    (rangeOrder : List (String × Nat) → List (String × Nat)) (hrange : IsRangeOrder rangeOrder)
    (targetUserID : String) (similarityMap : SimilarityMap α) (userRatings : UserRatings α)
    (hR : userRatings.WF) (n k : Int) (hn : 0 ≤ n) (hk : 0 ≤ k) :
    ∃ S : List Recommendation,
      generateRecommendations sortSlice rangeOrder targetUserID similarityMap userRatings n k =
        some (S.take k.toNat) ∧
      S.Pairwise (fun a b => b.Score ≤ a.Score) ∧
      (S.map fun r => r.Game).Nodup ∧
      (∀ r ∈ S, r.Game ∉ (userRatings.get targetUserID).map Prod.fst ∧
        r.Score = voteCount userRatings
          (topNeighbors sortSlice similarityMap targetUserID n) r.Game ∧
        1 ≤ r.Score) ∧
      (∀ m ∈ candidates userRatings targetUserID
          (topNeighbors sortSlice similarityMap targetUserID n),
        ({ Game := m, Score := voteCount userRatings
            (topNeighbors sortSlice similarityMap targetUserID n) m } : Recommendation)
          ∈ S) ∧
      S.length = (candidates userRatings targetUserID
        (topNeighbors sortSlice similarityMap targetUserID n)).length := by
  obtain ⟨S, hout, hperm, hsorted⟩ := generateRecommendations_spec sortSlice hsort rangeOrder
    hrange targetUserID similarityMap userRatings n k hn hk
  have hinv := voteLoop_inv userRatings (userRatings.get targetUserID)
    (topNeighbors sortSlice similarityMap targetUserID n)
  have hcount : ∀ m, m ∉ (userRatings.get targetUserID).map Prod.fst →
      (allVotes userRatings (userRatings.get targetUserID)
        (topNeighbors sortSlice similarityMap targetUserID n)).count m =
      voteCount userRatings (topNeighbors sortSlice similarityMap targetUserID n) m := by
    intro m hm
    rw [count_allVotes userRatings hR, if_neg]
    rw [lookup_isSome_iff_mem_keys]
    exact hm
  have hkeys : (S.map fun r => r.Game).Perm
      ((voteLoop userRatings (userRatings.get targetUserID)
        (topNeighbors sortSlice similarityMap targetUserID n)).map Prod.fst) := by
    have := hperm.map (fun r : Recommendation => r.Game)
    rwa [List.map_map] at this
  refine ⟨S, hout, hsorted, hkeys.nodup_iff.2 hinv.1, ?_, ?_, ?_⟩
  · intro r hr
    have hmem := hperm.mem_iff.1 hr
    rw [List.mem_map] at hmem
    obtain ⟨⟨m, c⟩, hmc, rfl⟩ := hmem
    obtain ⟨hc, hpos⟩ := (hinv.mem_iff m c).1 hmc
    have hin : m ∈ allVotes userRatings (userRatings.get targetUserID)
        (topNeighbors sortSlice similarityMap targetUserID n) := by
      rw [← List.count_pos_iff]; omega
    have hnot := ((mem_allVotes _ _ _ _).1 hin).2
    exact ⟨hnot, by rw [← hcount m hnot]; exact hc, hpos⟩
  · intro m hm
    rw [mem_candidates] at hm
    have hnot := ((mem_allVotes _ _ _ _).1 hm).2
    apply hperm.mem_iff.2
    rw [List.mem_map]
    refine ⟨(m, _), (hinv.mem_iff m _).2 ⟨rfl, List.count_pos_iff.2 hm⟩, ?_⟩
    rw [hcount m hnot]
  · rw [← (keys_voteLoop_perm userRatings targetUserID _).length_eq, ← hkeys.length_eq,
      List.length_map]

end RecommendLemmas


/-! ## The round-trip scenario -/

section Scenario
variable {α : Type} [LinearOrderedField α]

theorem scenario_get_U1 : (scenarioRatings α).get "U1" = [("A", 5), ("B", 4)] := rfl

theorem scenario_get_U2 : (scenarioRatings α).get "U2" = [("A", 5), ("B", 4), ("C", 3)] := rfl

theorem scenario_get_U3 : (scenarioRatings α).get "U3" = [("C", 5)] := rfl

theorem scenario_generator :
    generator ["U1", "U2", "U3"] =
      [{ UserA_ID := "U1", UserB_ID := "U2" }, { UserA_ID := "U1", UserB_ID := "U3" },
       { UserA_ID := "U2", UserB_ID := "U3" }] := by
  decide

theorem scenario_cos12_pos (sqrt : α → α) (hsqrt : ∀ x, 0 < x → 0 < sqrt x) :
    0 < cosineSimilarity sqrt ((scenarioRatings α).get "U1") ((scenarioRatings α).get "U2") := by
  rw [scenario_get_U1, scenario_get_U2]
  apply cosine_pos sqrt hsqrt
  · rw [cosineLoopA_fst]
    simp [ratingOr0, List.lookup]
    norm_num
  · rw [cosineLoopA_snd]
    simp
    norm_num
  · rw [cosineLoopB_eq]
    simp
    norm_num

theorem scenario_cos13_zero (sqrt : α → α) :
    cosineSimilarity sqrt ((scenarioRatings α).get "U1") ((scenarioRatings α).get "U3") = 0 := by
  rw [scenario_get_U1, scenario_get_U3]
  apply cosine_eq_zero_of_disjoint
  simp

theorem scenario_edges_U1 (sqrt : α → α) (hsqrt : ∀ x, 0 < x → 0 < sqrt x) :
    (generator ["U1", "U2", "U3"]).flatMap (jobEdges sqrt (scenarioRatings α) "U1") =
      [{ UserID := "U2",
         Score := cosineSimilarity sqrt ((scenarioRatings α).get "U1")
           ((scenarioRatings α).get "U2") }] := by
  rw [scenario_generator]
  simp only [List.flatMap_cons, List.flatMap_nil, jobEdges, scenario_cos13_zero,
    scenario_cos12_pos sqrt hsqrt, gt_iff_lt, lt_self_iff_false, if_true, if_false, edgesOf]
  have h1 : ¬ ("U1" : String) = "U2" := by decide
  have h2 : ¬ ("U1" : String) = "U3" := by decide
  simp [h1, h2]

theorem scenario_index_U1 (sqrt : α → α) (hsqrt : ∀ x, 0 < x → 0 < sqrt x)
    (schedule : List Job → List Job) (hs : IsSchedule schedule) (numWorkers : Int)
    (hw : 1 ≤ numWorkers) :
    (calculateAllSimilaritiesConcurrent sqrt schedule (scenarioRatings α) ["U1", "U2", "U3"]
        numWorkers).get "U1" =
      [{ UserID := "U2",
         Score := cosineSimilarity sqrt ((scenarioRatings α).get "U1")
           ((scenarioRatings α).get "U2") }] := by
  rw [calculate_get sqrt schedule _ _ numWorkers hw, ← List.perm_singleton,
    ← scenario_edges_U1 sqrt hsqrt]
  exact (hs _).flatMap_right _

theorem scenario_votes (e : SimilarityScore α) (he : e.UserID = "U2") :
    voteLoop (scenarioRatings α) ((scenarioRatings α).get "U1") [e] = [("C", 1)] := by
  unfold voteLoop
  rw [List.foldl_cons, List.foldl_nil, he, scenario_get_U1, scenario_get_U2]
  rfl

theorem scenario_recommendation
    (sortSlice : (β : Type) → (β → β → Bool) → List β → List β) (hsort : IsSortSlice sortSlice)
    (rangeOrder : List (String × Nat) → List (String × Nat)) (hrange : IsRangeOrder rangeOrder)
    (sqrt : α → α) (hsqrt : ∀ x, 0 < x → 0 < sqrt x)
    (schedule : List Job → List Job) (hs : IsSchedule schedule) (numWorkers : Int)
    (hw : 1 ≤ numWorkers) :
    generateRecommendations sortSlice rangeOrder "U1"
        (calculateAllSimilaritiesConcurrent sqrt schedule (scenarioRatings α)
          ["U1", "U2", "U3"] numWorkers)
        (scenarioRatings α) 2 5 =
      some [{ Game := "C", Score := 1 }] := by
  obtain ⟨S, hout, hperm, _⟩ := generateRecommendations_spec sortSlice hsort rangeOrder hrange
    "U1" (calculateAllSimilaritiesConcurrent sqrt schedule (scenarioRatings α)
      ["U1", "U2", "U3"] numWorkers) (scenarioRatings α) 2 5 (by decide) (by decide)
  have hnb : topNeighbors sortSlice
      (calculateAllSimilaritiesConcurrent sqrt schedule (scenarioRatings α)
        ["U1", "U2", "U3"] numWorkers) "U1" 2 =
      [{ UserID := "U2",
         Score := cosineSimilarity sqrt ((scenarioRatings α).get "U1")
           ((scenarioRatings α).get "U2") }] := by
    unfold topNeighbors
    rw [scenario_index_U1 sqrt hsqrt schedule hs numWorkers hw,
      List.perm_singleton.1 (hsort _ _ _).1]
    rfl
  rw [hnb, scenario_votes _ rfl] at hperm
  have hS : S = [{ Game := "C", Score := 1 }] := List.perm_singleton.1 hperm
  rw [hout, hS]
  rfl

end Scenario


/-! ## Properties of the recommender -/

theorem tableOf_WF {α : Type} (rows : List (String × RatingVec α))
    (h : ∀ row ∈ rows, NodupKeys row.2) : (tableOf rows).WF := by
  intro u v huv
  exact h (u, v) (mem_of_lookup_eq_some rows u v huv)

theorem scenarioRatings_WF (α : Type) [LinearOrderedField α] : (scenarioRatings α).WF := by
  apply tableOf_WF
  intro row hrow
  simp only [List.mem_cons, List.mem_singleton, List.not_mem_nil, or_false] at hrow
  rcases hrow with rfl | rfl | rfl <;> simp [NodupKeys]

theorem voteCount_congr {α : Type} (R R' : UserRatings α) (nbs nbs' : List (SimilarityScore α))
    (hkeys : ∀ u, (R'.get u).map Prod.fst = (R.get u).map Prod.fst)
    (hids : nbs'.map (fun nb => nb.UserID) = nbs.map (fun nb => nb.UserID)) (item : String) :
    voteCount R' nbs' item = voteCount R nbs item := by
  have h : ∀ (T : UserRatings α) (l : List (SimilarityScore α)),
      voteCount T l item =
        (l.map fun nb => nb.UserID).countP fun u => decide (item ∈ (T.get u).map Prod.fst) := by
    intro T l
    unfold voteCount
    rw [List.countP_map]
    rfl
  rw [h R', h R, hids]
  congr 1
  funext u
  rw [hkeys u]

/-- Claim C7. For every index, rating table (of maps), target user and bounds `n >= 0`, `k >= 0`,
`generateRecommendations` returns a list in which no item is named twice and every entry names
an item that is not in the target's rating vector and carries as `Score` the number of selected
neighbours (the first `min(n, length)` entries of the target's edge list after the sort by score)
whose rating vector contains the item; that number is at least 1, and it depends only on the
identifiers of the selected neighbours and on which items each vector contains, not on
similarity scores or rating values. In the scenario `U1:{A:5,B:4}`, `U2:{A:5,B:4,C:3}`,
`U3:{C:5}`, with the index computed from these ratings, the call for `U1` with `n = 2`, `k = 5`
returns exactly `C` with vote count 1 (so neither `A` nor `B`). -/
theorem recommendations_count_votes {α : Type} [LinearOrderedField α]
    (sortSlice : (β : Type) → (β → β → Bool) → List β → List β) (hsort : IsSortSlice sortSlice)
    (rangeOrder : List (String × Nat) → List (String × Nat)) (hrange : IsRangeOrder rangeOrder)
    (targetUserID : String) (similarityMap : SimilarityMap α) (userRatings : UserRatings α)
    (hR : userRatings.WF) (n k : Int) (hn : 0 ≤ n) (hk : 0 ≤ k) :
    (∃ out : List Recommendation,
      generateRecommendations sortSlice rangeOrder targetUserID similarityMap userRatings n k =
        some out ∧
      (out.map fun r => r.Game).Nodup ∧
      ∀ r ∈ out,
        r.Game ∉ (userRatings.get targetUserID).map Prod.fst ∧
        r.Score =
          ((sortSlice _ (fun a b => decide (a.Score > b.Score))
              (similarityMap.get targetUserID)).take n.toNat).countP
            (fun nb => decide (r.Game ∈ (userRatings.get nb.UserID).map Prod.fst)) ∧
        1 ≤ r.Score) ∧
    (∀ (R R' : UserRatings α) (nbs nbs' : List (SimilarityScore α)) (item : String),
      (∀ u, (R'.get u).map Prod.fst = (R.get u).map Prod.fst) →
      nbs'.map (fun nb => nb.UserID) = nbs.map (fun nb => nb.UserID) →
      nbs'.countP (fun nb => decide (item ∈ (R'.get nb.UserID).map Prod.fst)) =
        nbs.countP (fun nb => decide (item ∈ (R.get nb.UserID).map Prod.fst))) ∧
    (∀ (sqrt : α → α), (∀ x, 0 < x → 0 < sqrt x) →
      ∀ (schedule : List Job → List Job), IsSchedule schedule →
      ∀ (numWorkers : Int), 1 ≤ numWorkers →
        generateRecommendations sortSlice rangeOrder "U1"
            (calculateAllSimilaritiesConcurrent sqrt schedule (scenarioRatings α)
              ["U1", "U2", "U3"] numWorkers)
            (scenarioRatings α) 2 5 =
          some [{ Game := "C", Score := 1 }]) := by
  refine ⟨?_, fun R R' nbs nbs' item hkeys hids => voteCount_congr R R' nbs nbs' hkeys hids item,
    fun sqrt hsqrt schedule hs numWorkers hw =>
      scenario_recommendation sortSlice hsort rangeOrder hrange sqrt hsqrt schedule hs
        numWorkers hw⟩
  obtain ⟨S, hout, _, hnd, hS, _, _⟩ := generateRecommendations_facts sortSlice hsort rangeOrder
    hrange targetUserID similarityMap userRatings hR n k hn hk
  refine ⟨S.take k.toNat, hout, ?_, fun r hr => hS r (List.mem_of_mem_take hr)⟩
  exact hnd.sublist ((List.take_sublist _ _).map _)

/-- Witness for C7: the scenario over the reals, `sort.Slice` as insertion sort, the vote
table ranged over in insertion order, four workers whose steps take effect in emission order. -/
theorem recommendations_count_votes_witness :
    IsSortSlice insertionSortSlice ∧ IsRangeOrder id ∧ (scenarioRatings ℝ).WF ∧
    (0 : Int) ≤ 2 ∧ (0 : Int) ≤ 5 ∧
    generateRecommendations insertionSortSlice id "U1"
        (calculateAllSimilaritiesConcurrent Real.sqrt id (scenarioRatings ℝ)
          ["U1", "U2", "U3"] 4)
        (scenarioRatings ℝ) 2 5 =
      some [{ Game := "C", Score := 1 }] :=
  ⟨insertionSortSlice_isSortSlice, fun l => List.Perm.refl l, scenarioRatings_WF ℝ,
   by decide, by decide,
   (recommendations_count_votes insertionSortSlice insertionSortSlice_isSortSlice id
      (fun l => List.Perm.refl l) "U1"
      (calculateAllSimilaritiesConcurrent Real.sqrt id (scenarioRatings ℝ)
        ["U1", "U2", "U3"] 4)
      (scenarioRatings ℝ) (scenarioRatings_WF ℝ) 2 5 (by decide) (by decide)).2.2
      Real.sqrt (fun _ hx => Real.sqrt_pos.2 hx) id (fun l => List.Perm.refl l) 4 (by decide)⟩

theorem topkRatings_WF : topkRatings.WF := by
  apply tableOf_WF
  intro row hrow
  simp only [List.mem_cons, List.mem_singleton, List.not_mem_nil, or_false] at hrow
  rcases hrow with rfl | rfl | rfl | rfl <;> simp [NodupKeys]

theorem topk_sorted :
    insertionSortSlice (SimilarityScore ℚ) (fun a b => decide (a.Score > b.Score))
      [{ UserID := "N2", Score := 1 / 3 }, { UserID := "N1", Score := 1 / 2 },
       { UserID := "N3", Score := 1 / 4 }] =
      [{ UserID := "N1", Score := 1 / 2 }, { UserID := "N2", Score := 1 / 3 },
       { UserID := "N3", Score := 1 / 4 }] := by
  simp [insertionSortSlice, List.insertionSort, List.orderedInsert]
  norm_num

theorem topk_neighbors :
    topNeighbors insertionSortSlice topkIndex "T" 3 =
      [{ UserID := "N1", Score := 1 / 2 }, { UserID := "N2", Score := 1 / 3 },
       { UserID := "N3", Score := 1 / 4 }] := by
  unfold topNeighbors
  rw [show topkIndex.get "T" =
      [{ UserID := "N2", Score := 1 / 3 }, { UserID := "N1", Score := 1 / 2 },
       { UserID := "N3", Score := 1 / 4 }] from rfl, topk_sorted]
  rfl

theorem topk_candidates :
    candidates topkRatings "T" (topNeighbors insertionSortSlice topkIndex "T" 3) =
      ["A", "B", "C", "D"] := by
  rw [topk_neighbors]
  decide

theorem topk_votes :
    (["A", "B", "C", "D"].map
      (voteCount topkRatings (topNeighbors insertionSortSlice topkIndex "T" 3))) =
      [1, 3, 2, 1] := by
  rw [topk_neighbors]
  decide

theorem topk_result :
    generateRecommendations insertionSortSlice id "T" topkIndex topkRatings 3 2 =
      some [{ Game := "B", Score := 3 }, { Game := "C", Score := 2 }] := by
  unfold generateRecommendations
  simp only [show topkIndex "T" =
      some [{ UserID := "N2", Score := 1 / 3 }, { UserID := "N1", Score := 1 / 2 },
       { UserID := "N3", Score := 1 / 4 }] from rfl, selectNeighbors, topk_sorted]
  decide

/-- Claim C9, amended. For every input with `k >= 0` and with `n >= 0` (or whose target is not
a key of the index, where no slice by `n` is taken), `generateRecommendations` returns the top
`k` candidates: the result has exactly `min(k, c)` entries, `c` being the number of distinct
candidate items (items rated by at least one selected neighbour and not by the target); its vote
counts are non-increasing along the sequence; and every returned item has a vote count at
least that of every candidate item that is not returned. -/
theorem recommendations_top_k {α : Type} [LinearOrder α]
    (sortSlice : (β : Type) → (β → β → Bool) → List β → List β) (hsort : IsSortSlice sortSlice)
    (rangeOrder : List (String × Nat) → List (String × Nat)) (hrange : IsRangeOrder rangeOrder)
    (targetUserID : String) (similarityMap : SimilarityMap α) (userRatings : UserRatings α)
    (hR : userRatings.WF) (n k : Int) (hn : 0 ≤ n ∨ similarityMap targetUserID = none)
    (hk : 0 ≤ k) :
    ∃ out : List Recommendation,
      generateRecommendations sortSlice rangeOrder targetUserID similarityMap userRatings n k =
        some out ∧
      (out.length : Int) =
        min k ((candidates userRatings targetUserID
          (topNeighbors sortSlice similarityMap targetUserID n)).length : Int) ∧
      out.Pairwise (fun r₁ r₂ => r₁.Score ≥ r₂.Score) ∧
      ∀ r ∈ out, ∀ m ∈ candidates userRatings targetUserID
          (topNeighbors sortSlice similarityMap targetUserID n),
        m ∉ out.map (fun r => r.Game) →
        voteCount userRatings (topNeighbors sortSlice similarityMap targetUserID n) m ≤
          r.Score := by
  rcases hn with hn | habs
  · obtain ⟨S, hout, hsorted, _, _, hcand, hlen⟩ := generateRecommendations_facts sortSlice
      hsort rangeOrder hrange targetUserID similarityMap userRatings hR n k hn hk
    refine ⟨S.take k.toNat, hout, ?_, hsorted.sublist (List.take_sublist _ _), ?_⟩
    · rw [List.length_take, hlen]
      omega
    · intro r hr m hm hnot
      have hmS := hcand m hm
      have hsplit : S.take k.toNat ++ S.drop k.toNat = S := List.take_append_drop _ _
      rw [← hsplit, List.mem_append] at hmS
      rcases hmS with h | h
      · exact absurd (List.mem_map_of_mem (fun r => r.Game) h) hnot
      · rw [← hsplit, List.pairwise_append] at hsorted
        exact hsorted.2.2 r hr _ h
  · have hget : similarityMap.get targetUserID = [] := by
      simp [SimilarityMap.get, habs]
    have hnb : topNeighbors sortSlice similarityMap targetUserID n = [] := by
      unfold topNeighbors
      rw [hget, List.perm_nil.1 (hsort _ _ []).1]
      exact List.take_nil
    have hcand : candidates userRatings targetUserID
        (topNeighbors sortSlice similarityMap targetUserID n) = [] := by
      rw [hnb]
      rfl
    refine ⟨[], ?_, ?_, List.Pairwise.nil, fun r hr => absurd hr (List.not_mem_nil r)⟩
    · unfold generateRecommendations
      rw [habs]
    · rw [hcand]
      simp only [List.length_nil, Nat.cast_zero]
      exact (min_eq_right hk).symm

/-- Witness for C9 (amended): `T` has three neighbours and four candidates `A`, `B`, `C`, `D`
with 1, 3, 2, 1 votes; with `n = 3`, `k = 2` the call returns `B` then `C` and leaves `A` and
`D` out. -/
theorem recommendations_top_k_witness :
    IsSortSlice insertionSortSlice ∧ IsRangeOrder id ∧ topkRatings.WF ∧
    ((0 : Int) ≤ 3 ∨ topkIndex "T" = none) ∧ (0 : Int) ≤ 2 ∧
    generateRecommendations insertionSortSlice id "T" topkIndex topkRatings 3 2 =
      some [{ Game := "B", Score := 3 }, { Game := "C", Score := 2 }] ∧
    candidates topkRatings "T" (topNeighbors insertionSortSlice topkIndex "T" 3) =
      ["A", "B", "C", "D"] ∧
    (["A", "B", "C", "D"].map
      (voteCount topkRatings (topNeighbors insertionSortSlice topkIndex "T" 3))) =
      [1, 3, 2, 1] ∧
    ∃ out : List Recommendation,
      generateRecommendations insertionSortSlice id "T" topkIndex topkRatings 3 2 = some out ∧
      (out.length : Int) =
        min 2 ((candidates topkRatings "T"
          (topNeighbors insertionSortSlice topkIndex "T" 3)).length : Int) ∧
      out.Pairwise (fun r₁ r₂ => r₁.Score ≥ r₂.Score) ∧
      ∀ r ∈ out, ∀ m ∈ candidates topkRatings "T"
          (topNeighbors insertionSortSlice topkIndex "T" 3),
        m ∉ out.map (fun r => r.Game) →
        voteCount topkRatings (topNeighbors insertionSortSlice topkIndex "T" 3) m ≤ r.Score :=
  ⟨insertionSortSlice_isSortSlice, fun l => List.Perm.refl l, topkRatings_WF,
   Or.inl (by decide), by decide, topk_result, topk_candidates, topk_votes,
   recommendations_top_k insertionSortSlice insertionSortSlice_isSortSlice id
     (fun l => List.Perm.refl l) "T" topkIndex topkRatings topkRatings_WF 3 2
     (Or.inl (by decide)) (by decide)⟩

/-- Counterexample to claim C9 as stated. With `k = 2 >= 0` but `n = -1`, and `T` a key of the
index, `len(neighbors) > n` holds and the slice expression `neighbors[:n]` panics: the call
returns no list at all, so in particular not the top `k` candidates. -/
theorem recommendations_top_k_counterexample :
    IsSortSlice insertionSortSlice ∧ IsRangeOrder id ∧ topkRatings.WF ∧ (0 : Int) ≤ 2 ∧
    generateRecommendations insertionSortSlice id "T" topkIndex topkRatings (-1) 2 = none ∧
    ¬ ∃ out : List Recommendation,
      generateRecommendations insertionSortSlice id "T" topkIndex topkRatings (-1) 2 =
        some out ∧
      (out.length : Int) =
        min 2 ((candidates topkRatings "T"
          (topNeighbors insertionSortSlice topkIndex "T" (-1))).length : Int) ∧
      out.Pairwise (fun r₁ r₂ => r₁.Score ≥ r₂.Score) ∧
      ∀ r ∈ out, ∀ m ∈ candidates topkRatings "T"
          (topNeighbors insertionSortSlice topkIndex "T" (-1)),
        m ∉ out.map (fun r => r.Game) →
        voteCount topkRatings (topNeighbors insertionSortSlice topkIndex "T" (-1)) m ≤
          r.Score := by
  have hnone :
      generateRecommendations insertionSortSlice id "T" topkIndex topkRatings (-1) 2 = none := by
    decide
  refine ⟨insertionSortSlice_isSortSlice, fun l => List.Perm.refl l, topkRatings_WF,
    by decide, hnone, ?_⟩
  rintro ⟨out, hout, _⟩
  rw [hnone] at hout
  cases hout

/-- Claim C8, amended. The sequence returned by `generateRecommendations` is ordered by vote
count descending: for any two consecutive returned recommendations `r1`, `r2`,
`r1.Score >= r2.Score` (and likewise for any earlier and later entry); and for bounds
`n >= 0`, `k >= 0` the function does return. Nothing is promised about the order of entries
with equal vote counts. -/
theorem recommendations_sorted_by_votes {α : Type} [LinearOrder α]
    (sortSlice : (β : Type) → (β → β → Bool) → List β → List β) (hsort : IsSortSlice sortSlice)
    (rangeOrder : List (String × Nat) → List (String × Nat)) (hrange : IsRangeOrder rangeOrder)
    (targetUserID : String) (similarityMap : SimilarityMap α) (userRatings : UserRatings α)
    (n k : Int) :
    (∀ out,
      generateRecommendations sortSlice rangeOrder targetUserID similarityMap userRatings n k =
        some out →
      out.Chain' (fun r₁ r₂ => r₁.Score ≥ r₂.Score) ∧
      out.Pairwise (fun r₁ r₂ => r₁.Score ≥ r₂.Score)) ∧
    (0 ≤ n → 0 ≤ k → ∃ out,
      generateRecommendations sortSlice rangeOrder targetUserID similarityMap userRatings n k =
        some out) := by
  have hsorted : ∀ l : List Recommendation,
      (sortSlice _ (fun a b => decide (a.Score > b.Score)) l).Pairwise
        (fun r₁ r₂ => r₁.Score ≥ r₂.Score) := by
    intro l
    have h := (hsort Recommendation (fun a b => decide (a.Score > b.Score)) l).2
      (by intro a b h; simp only [decide_eq_true_eq, decide_eq_false_iff_not] at *; omega)
      (by intro a b c h1 h2; simp only [decide_eq_false_iff_not] at *; omega)
    refine h.imp ?_
    intro a b hab
    simp only [decide_eq_false_iff_not] at hab
    omega
  constructor
  · intro out hout
    have hpw : out.Pairwise (fun r₁ r₂ => r₁.Score ≥ r₂.Score) := by
      unfold generateRecommendations at hout
      cases hidx : similarityMap targetUserID with
      | none =>
        rw [hidx] at hout
        cases hout
        exact List.Pairwise.nil
      | some ts =>
        rw [hidx] at hout
        simp only at hout
        cases hnb : selectNeighbors sortSlice ts n with
        | none => rw [hnb] at hout; cases hout
        | some nbs =>
          rw [hnb] at hout
          simp only at hout
          have hsub : List.Sublist out (sortSlice _ (fun a b => decide (a.Score > b.Score))
              ((rangeOrder (voteLoop userRatings (userRatings.get targetUserID) nbs)).map
                fun e => ({ Game := e.1, Score := e.2 } : Recommendation))) := by
            unfold sliceTo at hout
            split at hout
            · split at hout
              · cases hout
              · cases hout
                exact List.take_sublist _ _
            · cases hout
              exact List.Sublist.refl _
          exact (hsorted _).sublist hsub
    exact ⟨hpw.chain', hpw⟩
  · intro hn hk
    obtain ⟨S, hS, _⟩ := generateRecommendations_spec sortSlice hsort rangeOrder hrange
      targetUserID similarityMap userRatings n k hn hk
    exact ⟨_, hS⟩

/-- Witness for C8 (amended): the tie input, with the bounds used by `main`. -/
theorem recommendations_sorted_by_votes_witness :
    IsSortSlice insertionSortSlice ∧ IsRangeOrder id ∧
    ∃ out,
      generateRecommendations insertionSortSlice id "T" tieIndex tieRatings 10 7 = some out ∧
      out.Chain' (fun r₁ r₂ => r₁.Score ≥ r₂.Score) :=
  ⟨insertionSortSlice_isSortSlice, fun l => List.Perm.refl l,
   ⟨[{ Game := "B", Score := 1 }, { Game := "A", Score := 1 }], by decide,
    ((recommendations_sorted_by_votes insertionSortSlice insertionSortSlice_isSortSlice id
        (fun l => List.Perm.refl l) "T" tieIndex tieRatings 10 7).1 _ (by decide)).1⟩⟩

/-- Counterexample to claim C8 as stated. On the tie input `sort.Slice` may leave `B` before `A` although
both have one vote and `"B" > "A"`; and ranging over the vote table in the other order makes
the same call return the two items the other way round. -/
theorem recommendations_tie_break_counterexample :
    IsSortSlice insertionSortSlice ∧ IsRangeOrder id ∧ IsRangeOrder List.reverse ∧
    generateRecommendations insertionSortSlice id "T" tieIndex tieRatings 10 7 =
      some [{ Game := "B", Score := 1 }, { Game := "A", Score := 1 }] ∧
    ¬ List.Chain'
        (fun r₁ r₂ : Recommendation =>
          r₁.Score > r₂.Score ∨ (r₁.Score = r₂.Score ∧ r₁.Game < r₂.Game))
        [{ Game := "B", Score := 1 }, { Game := "A", Score := 1 }] ∧
    generateRecommendations insertionSortSlice List.reverse "T" tieIndex tieRatings 10 7 =
      some [{ Game := "A", Score := 1 }, { Game := "B", Score := 1 }] := by
  refine ⟨insertionSortSlice_isSortSlice, fun l => List.Perm.refl l,
    fun l => List.reverse_perm l, by decide, ?_, by decide⟩
  simp only [List.chain'_cons, List.chain'_singleton, and_true, gt_iff_lt, lt_self_iff_false,
    true_and, false_or]
  rw [String.lt_iff_toList_lt]
  decide


/-! ## A job naming a user that is not in the rating table -/

theorem get_of_absent {α : Type} (userRatings : UserRatings α) (u : String)
    (h : userRatings u = none) : userRatings.get u = [] := by
  simp [UserRatings.get, h]

/-- Claim C10, amended. When a job names a user identifier that is not a key of the rating
table, the worker step completes normally: the missing user's rating vector is read as the
empty map, `cosineSimilarity` returns `0`, no edge is added (the index is returned
unchanged), and the worker goes on with the remaining jobs. -/
theorem worker_absent_user_skipped {α : Type} [LinearOrderedField α] (sqrt : α → α)
    (userRatings : UserRatings α) (safeMap : SafeSimilarityMap α) (job : Job)
    (h : userRatings job.UserA_ID = none ∨ userRatings job.UserB_ID = none) :
    (userRatings.get job.UserA_ID = [] ∨ userRatings.get job.UserB_ID = []) ∧
    cosineSimilarity sqrt (userRatings.get job.UserA_ID) (userRatings.get job.UserB_ID) = 0 ∧
    workerStep sqrt userRatings safeMap job = safeMap ∧
    ∀ rest, worker sqrt userRatings (job :: rest) safeMap = worker sqrt userRatings rest safeMap := by
  have hcos : cosineSimilarity sqrt (userRatings.get job.UserA_ID)
      (userRatings.get job.UserB_ID) = 0 := by
    apply cosine_eq_zero_of_disjoint
    rcases h with h | h
    · rw [get_of_absent _ _ h]; simp
    · rw [get_of_absent _ _ h]; simp
  have hstep : workerStep sqrt userRatings safeMap job = safeMap := by
    unfold workerStep
    simp only [hcos, gt_iff_lt, lt_self_iff_false, if_false]
  refine ⟨h.imp (get_of_absent _ _) (get_of_absent _ _), hcos, hstep, fun rest => ?_⟩
  unfold worker
  rw [List.foldl_cons, hstep]

/-- Witness for C10 (amended): the job `(U1, U9)` against the scenario table, which has no `U9`. -/
theorem worker_absent_user_skipped_witness :
    ((scenarioRatings ℝ) "U1" = none ∨ (scenarioRatings ℝ) "U9" = none) ∧
    workerStep Real.sqrt (scenarioRatings ℝ) { data := SimilarityMap.empty }
      { UserA_ID := "U1", UserB_ID := "U9" } = { data := SimilarityMap.empty } :=
  ⟨Or.inr rfl,
   (worker_absent_user_skipped Real.sqrt (scenarioRatings ℝ) { data := SimilarityMap.empty }
      { UserA_ID := "U1", UserB_ID := "U9" } (Or.inr rfl)).2.2.1⟩

/-- Counterexample to claim C10 as stated. The scenario table has no user `U9`, yet the worker step for the
job `(U1, U9)` completes, scoring the pair `0` like any pair without a shared item and leaving
the index as it was; a worker given that job and then `(U1, U2)` goes on to record the edge
of the second job. -/
theorem worker_absent_user_counterexample :
    (scenarioRatings ℝ) "U9" = none ∧
    cosineSimilarity Real.sqrt ((scenarioRatings ℝ).get "U1") ((scenarioRatings ℝ).get "U9") = 0 ∧
    workerStep Real.sqrt (scenarioRatings ℝ) { data := SimilarityMap.empty }
      { UserA_ID := "U1", UserB_ID := "U9" } = { data := SimilarityMap.empty } ∧
    (worker Real.sqrt (scenarioRatings ℝ)
        [{ UserA_ID := "U1", UserB_ID := "U9" }, { UserA_ID := "U1", UserB_ID := "U2" }]
        { data := SimilarityMap.empty }).data.get "U1" =
      [{ UserID := "U2",
         Score := cosineSimilarity Real.sqrt ((scenarioRatings ℝ).get "U1")
           ((scenarioRatings ℝ).get "U2") }] := by
  have hcos : cosineSimilarity Real.sqrt ((scenarioRatings ℝ).get "U1")
      ((scenarioRatings ℝ).get "U9") = 0 := by
    apply cosine_eq_zero_of_disjoint
    rw [show (scenarioRatings ℝ).get "U9" = [] from rfl]
    simp
  have hpos := scenario_cos12_pos Real.sqrt (fun _ hx => Real.sqrt_pos.2 hx)
  refine ⟨rfl, hcos, ?_, ?_⟩
  · unfold workerStep
    simp only [hcos, gt_iff_lt, lt_self_iff_false, if_false]
  · rw [worker_get, SimilarityMap.get_empty, List.nil_append]
    simp only [List.flatMap_cons, List.flatMap_nil, jobEdges, hcos, hpos, gt_iff_lt,
      lt_self_iff_false, if_true, if_false, edgesOf]
    have h1 : ¬ ("U1" : String) = "U2" := by decide
    simp [h1]

end MovieLens
